import Mathlib

/-!
Verification of the storage-engine core of the repository: the LRU
replacer, the buffer pool manager, and the B+ tree index, shallowly
embedded from the C++ sources.

Conventions of the embedding:
- page identifiers are `Int` (C++ `page_id_t`, a 32-bit signed int;
  all values arising here are far from overflow), with
  `INVALID_PAGE_ID = -1`;
- frame identifiers are `Nat` (they index the frame array, which the
  source populates with `0 .. pool_size-1`);
- page payload bytes are abstracted to a single `Int` value;
- the mutexes of the source serialize each operation; an operation is
  embedded as a pure state transformer;
- every disk access and page-table update performed by an operation is
  also recorded, in source order, in an event list, so that ordering
  properties can be stated.
-/

namespace Primer

/-- Sentinel page identifier, `INVALID_PAGE_ID` in the source. -/
def INVALID_PAGE_ID : Int := -1

/-! ## LRU replacer

Embedding of `src/buffer/lru_replacer.cpp` and the `QueueLinkedList`
of `src/include/buffer/lru_replacer.h`.  The doubly linked queue with
head and tail sentinels is represented by a `List Nat` whose head is
the node right after the `head` sentinel (most recently added) and
whose last element is the node right before the `tail` sentinel.  The
side map `map_` contains exactly the frames in the queue, so
`contains` is list membership.  `LRUReplacer` keeps its own element
counter `size` next to the queue, exactly as the source does. -/

/-- State of `LRUReplacer`: the queue (head = most recently added) and
the redundant element counter maintained by the class.  The
`capacity` field records the `num_pages` constructor argument, which
the source stores but never reads. -/
structure LRURep where
  queue : List Nat
  size : Nat
  capacity : Nat
  deriving Repr, DecidableEq

/-- Constructor `LRUReplacer(num_pages)`: empty queue, size 0. -/
def LRURep.mk0 (numPages : Nat) : LRURep :=
  { queue := [], size := 0, capacity := numPages }

/-- Method `QueueLinkedList::pop`: detach the node before the tail
sentinel (the least recently added element) and return its frame id.
The source requires a nonempty queue; an empty queue yields `none`
here (the only caller guards with `isEmpty`). -/
def LRURep.queuePop (q : List Nat) : Option (Nat × List Nat) :=
  match q.getLast? with
  | none => none
  | some f => some (f, q.dropLast)

/-- Method `LRUReplacer::Victim`: if the queue is empty return false
(here `none`); otherwise pop the tail element, decrement `size`, and
return it. -/
def LRURep.victim (r : LRURep) : Option Nat × LRURep :=
  if r.queue.isEmpty then
    (none, r)
  else
    match LRURep.queuePop r.queue with
    | none => (none, r)
    | some (f, q') => (some f, { r with queue := q', size := r.size - 1 })

/-- Method `LRUReplacer::Pin`: if the frame is not in the queue,
return; otherwise remove it from the queue and decrement `size`. -/
def LRURep.pin (r : LRURep) (f : Nat) : LRURep :=
  if f ∈ r.queue then
    { r with queue := r.queue.erase f, size := r.size - 1 }
  else
    r

/-- Method `LRUReplacer::Unpin`: if the frame is already in the queue,
return (no promotion); otherwise add it right after the head sentinel
(list head) and increment `size`. -/
def LRURep.unpin (r : LRURep) (f : Nat) : LRURep :=
  if f ∈ r.queue then
    r
  else
    { r with queue := f :: r.queue, size := r.size + 1 }

/-- Method `LRUReplacer::Size`: the stored counter. -/
def LRURep.sizeOf (r : LRURep) : Nat := r.size

/-- The concrete replacer state of the LRU-order scenario of the spec:
pool of 7 frames, unpin frames 1 to 6 in order, then pin 1, 3, 4. -/
def c7Scenario : LRURep :=
  ((((((((LRURep.mk0 7).unpin 1).unpin 2).unpin 3).unpin
    4).unpin 5).unpin 6).pin 1 |>.pin 3).pin 4

/-- C7: Victim returns absent iff the replacer queue is empty, and
otherwise removes and returns the least recently unpinned frame (the
last queue element).  Moreover in the concrete scenario, after
unpinning frames 1 to 6 and then pinning 1, 3, 4, the size is 3 and
three successive victims are 2, 5, 6 in that order. -/
theorem c7_lru_victim (r : LRURep) :
    ((r.victim).1 = none ↔ r.queue = []) ∧
    (∀ f, r.queue.getLast? = some f →
      r.victim =
        (some f, { r with queue := r.queue.dropLast, size := r.size - 1 })) ∧
    (c7Scenario.sizeOf = 3 ∧
      (c7Scenario.victim).1 = some 2 ∧
      (((c7Scenario.victim).2.victim).1 = some 5 ∧
        ((((c7Scenario.victim).2.victim).2.victim).1 = some 6 ∧
          ((((c7Scenario.victim).2.victim).2.victim).2.victim).1 = none))) := by
  refine ⟨?_, ?_, by decide⟩
  · unfold LRURep.victim LRURep.queuePop
    cases h : r.queue with
    | nil => simp
    | cons a t =>
      simp only [List.isEmpty_cons, if_false, Bool.false_eq_true]
      cases hg : (a :: t).getLast? with
      | none => simp [List.getLast?] at hg
      | some f => simp [h]
  · intro f hf
    unfold LRURep.victim LRURep.queuePop
    have hne : r.queue ≠ [] := by
      intro h; rw [h] at hf; simp [List.getLast?] at hf
    simp [List.isEmpty_iff, hne, hf]

/-- Witness for C7 at a concrete replacer state. -/
theorem c7_lru_victim_witness :
    c7Scenario.queue.getLast? = some 2 ∧
      c7Scenario.victim =
        (some 2,
          { c7Scenario with
              queue := c7Scenario.queue.dropLast, size := c7Scenario.size - 1 }) :=
  ⟨by decide, (c7_lru_victim c7Scenario).2.1 2 (by decide)⟩

/-- C8: Unpin of a frame inserts at the head of the queue when the
frame is absent, is a no-op when the frame is present (no promotion),
and is therefore idempotent: two successive unpins of the same frame
equal one. -/
theorem c8_lru_unpin (r : LRURep) (f : Nat) :
    (f ∉ r.queue →
      r.unpin f = { r with queue := f :: r.queue, size := r.size + 1 }) ∧
    (f ∈ r.queue → r.unpin f = r) ∧
    (r.unpin f).unpin f = r.unpin f := by
  refine ⟨fun h => by simp [LRURep.unpin, h], fun h => by simp [LRURep.unpin, h], ?_⟩
  by_cases h : f ∈ r.queue
  · simp [LRURep.unpin, h]
  · simp [LRURep.unpin, h]

/-- Witness for C8 at a concrete replacer state and frame. -/
theorem c8_lru_unpin_witness :
    ((3 : Nat) ∉ [(6 : Nat), 5, 2] →
      LRURep.unpin ⟨[6, 5, 2], 3, 7⟩ 3 = ⟨[3, 6, 5, 2], 4, 7⟩) ∧
    ((3 : Nat) ∉ ([(6 : Nat), 5, 2] : List Nat) ∧
      LRURep.unpin ⟨[6, 5, 2], 3, 7⟩ 3 = ⟨[3, 6, 5, 2], 4, 7⟩) :=
  ⟨((c8_lru_unpin ⟨[6, 5, 2], 3, 7⟩ 3).1), by
    exact ⟨by decide, (c8_lru_unpin ⟨[6, 5, 2], 3, 7⟩ 3).1 (by decide)⟩⟩

/-! ## Buffer pool manager

Embedding of `src/buffer/buffer_pool_manager.cpp`.  The `pages_`
array is a `List Frame` indexed by frame id; `page_table_`
(`std::unordered_map`) is an association list whose `insert` is a
no-op when the key is present, exactly like the C++ map; the free
list is a FIFO `List Nat`; the replacer is the `LRURep` above.  Disk
reads, disk writes, page allocation and both page-table updates are
recorded in an event list in the order the source performs them. -/

/-- Observable actions of a buffer pool operation, in source order. -/
inductive BPEvent where
  | writePage (pid : Int) (data : Int)
  | readPage (pid : Int)
  | allocPage (pid : Int)
  | deallocPage (pid : Int)
  | tableErase (pid : Int)
  | tableInsert (pid : Int) (fid : Nat)
  deriving Repr, DecidableEq

/-- Per-frame metadata of a `Page` object: resident page id, pin
counter (a C++ `int`), dirty flag, and the data bytes (abstracted to
one integer). -/
structure Frame where
  page_id : Int
  pin_count : Int
  is_dirty : Bool
  data : Int
  deriving Repr, DecidableEq

/-- A fresh `Page` object: invalid page id, pin count zero, clean,
zeroed bytes. -/
def defaultFrame : Frame :=
  { page_id := INVALID_PAGE_ID, pin_count := 0, is_dirty := false, data := 0 }

instance : Inhabited Frame := ⟨defaultFrame⟩

/-- Lookup in an association list (`std::unordered_map::find`). -/
def alookup {β : Type} : List (Int × β) → Int → Option β
  | [], _ => none
  | (k, v) :: t, k' => if k = k' then some v else alookup t k'

/-- Erase from an association list (`std::unordered_map::erase`);
removes the entry with the given key, if any. -/
def aerase {β : Type} : List (Int × β) → Int → List (Int × β)
  | [], _ => []
  | (k, v) :: t, k' => if k = k' then t else (k, v) :: aerase t k'

/-- Insert into an association list (`std::unordered_map::insert`):
a no-op when the key is already present, exactly like the C++ map. -/
def ainsert {β : Type} (l : List (Int × β)) (k : Int) (v : β) : List (Int × β) :=
  match alookup l k with
  | some _ => l
  | none => (k, v) :: l

/-- Overwriting update of an association list, used for the disk
store where `write_page` replaces the bytes of a page. -/
def aupdate {β : Type} : List (Int × β) → Int → β → List (Int × β)
  | [], k, v => [(k, v)]
  | (k', v') :: t, k, v => if k' = k then (k, v) :: t else (k', v') :: aupdate t k v

/-- The external disk I/O provider: the bytes stored per page id and
the monotone counter behind `AllocatePage`. -/
structure DiskMgr where
  store : List (Int × Int)
  next : Int
  deriving Repr, DecidableEq

/-- Disk `read_page`: bytes previously written, or zeros. -/
def DiskMgr.readPage (d : DiskMgr) (pid : Int) : Int :=
  (alookup d.store pid).getD 0

/-- Disk `write_page`. -/
def DiskMgr.writePage (d : DiskMgr) (pid : Int) (v : Int) : DiskMgr :=
  { d with store := aupdate d.store pid v }

/-- Disk `allocate_page`: monotonically assigns new identifiers. -/
def DiskMgr.allocatePage (d : DiskMgr) : Int × DiskMgr :=
  (d.next, { d with next := d.next + 1 })

/-- Disk `deallocate_page`: a logical release, no state change in the
model. -/
def DiskMgr.deallocatePage (d : DiskMgr) (_pid : Int) : DiskMgr := d

/-- State owned by `BufferPoolManager`. -/
structure BPM where
  pool_size : Nat
  pages : List Frame
  free_list : List Nat
  replacer : LRURep
  page_table : List (Int × Nat)
  disk : DiskMgr
  deriving Repr, DecidableEq

/-- Read of `pages_[frame_id]`. -/
def BPM.frameAt (s : BPM) (fid : Nat) : Frame :=
  (s.pages[fid]?).getD defaultFrame

/-- The constructor `BufferPoolManager(pool_size, ...)`: every frame
fresh and on the free list. -/
def BPM.mk0 (n : Nat) (d : DiskMgr) : BPM :=
  { pool_size := n
    pages := List.replicate n defaultFrame
    free_list := List.range n
    replacer := LRURep.mk0 n
    page_table := []
    disk := d }

/-- Method `BufferPoolManager::FetchPageImpl`.  Returns the frame id
of the returned `Page` pointer (or `none` for `nullptr`), the new
state, and the events performed. -/
def BPM.fetchPage (s : BPM) (pid : Int) : Option Nat × BPM × List BPEvent :=
  match alookup s.page_table pid with
  | some fid =>
      -- page-table hit: replacer pin, then increment the pin count
      let rep := s.replacer.pin fid
      let fr := s.frameAt fid
      let pages := s.pages.set fid { fr with pin_count := fr.pin_count + 1 }
      (some fid, { s with replacer := rep, pages := pages }, [])
  | none =>
      match s.free_list with
      | fid :: rest =>
          -- victim from the free list: no writeback, no table erase
          let t1 := ainsert s.page_table pid fid
          let data := s.disk.readPage pid
          let pages := s.pages.set fid
            { page_id := pid, pin_count := 1, is_dirty := false, data := data }
          (some fid,
            { s with free_list := rest, page_table := t1, pages := pages },
            [BPEvent.tableInsert pid fid, BPEvent.readPage pid])
      | [] =>
          match s.replacer.victim with
          | (none, rep) => (none, { s with replacer := rep }, [])
          | (some fid, rep) =>
              let fr := s.frameAt fid
              let wb :=
                if fr.is_dirty then [BPEvent.writePage fr.page_id fr.data] else []
              let disk1 :=
                if fr.is_dirty then s.disk.writePage fr.page_id fr.data else s.disk
              let t0 := aerase s.page_table fr.page_id
              let t1 := ainsert t0 pid fid
              let data := disk1.readPage pid
              let pages := s.pages.set fid
                { page_id := pid, pin_count := 1, is_dirty := false, data := data }
              (some fid,
                { s with replacer := rep, page_table := t1, disk := disk1,
                          pages := pages },
                wb ++ [BPEvent.tableErase fr.page_id, BPEvent.tableInsert pid fid,
                  BPEvent.readPage pid])

/-- Method `BufferPoolManager::UnpinPageImpl`. -/
def BPM.unpinPage (s : BPM) (pid : Int) (is_dirty : Bool) : Bool × BPM :=
  match alookup s.page_table pid with
  | none => (false, s)
  | some fid =>
      let fr := s.frameAt fid
      if fr.pin_count ≤ 0 then
        (false, s)
      else
        -- dirty is only assigned when the frame was not already dirty
        let dirty1 := if ¬fr.is_dirty then is_dirty else fr.is_dirty
        let pin1 := fr.pin_count - 1
        let pages := s.pages.set fid { fr with is_dirty := dirty1, pin_count := pin1 }
        let rep := if pin1 = 0 then s.replacer.unpin fid else s.replacer
        (true, { s with pages := pages, replacer := rep })

/-- Method `BufferPoolManager::FlushPageImpl`. -/
def BPM.flushPage (s : BPM) (pid : Int) : Bool × BPM × List BPEvent :=
  match alookup s.page_table pid with
  | none => (false, s, [])
  | some fid =>
      let fr := s.frameAt fid
      let evts := if fr.is_dirty then [BPEvent.writePage fr.page_id fr.data] else []
      let disk1 := if fr.is_dirty then s.disk.writePage fr.page_id fr.data else s.disk
      let pages := s.pages.set fid { fr with is_dirty := false }
      (true, { s with disk := disk1, pages := pages }, evts)

/-- Method `BufferPoolManager::NewPageImpl`.  Returns the allocated
page id and frame id (or `none` for `nullptr`). -/
def BPM.newPage (s : BPM) : Option (Int × Nat) × BPM × List BPEvent :=
  if s.free_list.isEmpty && s.replacer.sizeOf == 0 then
    (none, s, [])
  else
    match s.free_list with
    | fid :: rest =>
        let (pid, disk2) := s.disk.allocatePage
        let pages := s.pages.set fid
          { page_id := pid, pin_count := 1, is_dirty := false, data := 0 }
        let t1 := ainsert s.page_table pid fid
        (some (pid, fid),
          { s with free_list := rest, disk := disk2, pages := pages, page_table := t1 },
          [BPEvent.allocPage pid, BPEvent.tableInsert pid fid])
    | [] =>
        match s.replacer.victim with
        | (none, rep) => (none, { s with replacer := rep }, [])
        | (some fid, rep) =>
            let fr := s.frameAt fid
            let wb :=
              if fr.is_dirty then [BPEvent.writePage fr.page_id fr.data] else []
            let disk1 :=
              if fr.is_dirty then s.disk.writePage fr.page_id fr.data else s.disk
            let t0 := aerase s.page_table fr.page_id
            let (pid, disk2) := disk1.allocatePage
            let pages := s.pages.set fid
              { page_id := pid, pin_count := 1, is_dirty := false, data := 0 }
            let t1 := ainsert t0 pid fid
            (some (pid, fid),
              { s with replacer := rep, page_table := t1, disk := disk2,
                        pages := pages },
              wb ++ [BPEvent.tableErase fr.page_id, BPEvent.allocPage pid,
                BPEvent.tableInsert pid fid])

/-- Method `BufferPoolManager::DeletePageImpl`. -/
def BPM.deletePage (s : BPM) (pid : Int) : Bool × BPM × List BPEvent :=
  match alookup s.page_table pid with
  | none => (true, s, [])
  | some fid =>
      let fr := s.frameAt fid
      if fr.pin_count ≠ 0 then
        (false, s, [])
      else
        let t0 := aerase s.page_table pid
        let pages := s.pages.set fid defaultFrame
        let rep := s.replacer.pin fid
        let free1 := s.free_list ++ [fid]
        (true,
          { s with page_table := t0, pages := pages, replacer := rep,
                    free_list := free1, disk := s.disk.deallocatePage pid },
          [BPEvent.deallocPage pid])

/-- A call in a client sequence against the buffer pool: the four
operations the quantified invariant ranges over. -/
inductive BPOp where
  | fetch (pid : Int)
  | unpin (pid : Int) (dirty : Bool)
  | newP
  | delete (pid : Int)
  deriving Repr, DecidableEq

/-- Apply one call, keeping only the state. -/
def BPM.applyOp (s : BPM) : BPOp → BPM
  | BPOp.fetch pid => (s.fetchPage pid).2.1
  | BPOp.unpin pid d => (s.unpinPage pid d).2
  | BPOp.newP => (s.newPage).2.1
  | BPOp.delete pid => (s.deletePage pid).2.1

/-- Run a sequence of calls. -/
def BPM.runOps (s : BPM) (ops : List BPOp) : BPM :=
  ops.foldl BPM.applyOp s

/-- Number of frames whose pin count is positive. -/
def BPM.pinnedCount (s : BPM) : Nat :=
  (List.range s.pool_size).countP (fun fid => decide (0 < (s.frameAt fid).pin_count))

/-! ### Association list lemmas -/

theorem alookup_eq_none_iff {β : Type} (l : List (Int × β)) (k : Int) :
    alookup l k = none ↔ ∀ pv ∈ l, pv.1 ≠ k := by
  induction l with
  | nil => simp [alookup]
  | cons hd t ih =>
    obtain ⟨k', v'⟩ := hd
    by_cases h : k' = k
    · subst h; simp [alookup]
    · simp [alookup, h, ih]

theorem alookup_mem {β : Type} {l : List (Int × β)} {k : Int} {v : β}
    (h : alookup l k = some v) : (k, v) ∈ l := by
  induction l with
  | nil => simp [alookup] at h
  | cons hd t ih =>
    obtain ⟨k', v'⟩ := hd
    by_cases hk : k' = k
    · subst hk
      simp [alookup] at h
      simp [h]
    · simp [alookup, hk] at h
      exact List.mem_cons_of_mem _ (ih h)

theorem aerase_sublist {β : Type} (l : List (Int × β)) (k : Int) :
    (aerase l k).Sublist l := by
  induction l with
  | nil => simp [aerase]
  | cons hd t ih =>
    obtain ⟨k', v'⟩ := hd
    by_cases h : k' = k
    · simp [aerase, h]
    · simp [aerase, h]
      exact ih

theorem mem_of_mem_aerase {β : Type} {l : List (Int × β)} {k : Int} {pv : Int × β}
    (h : pv ∈ aerase l k) : pv ∈ l :=
  (aerase_sublist l k).mem h

theorem mem_aerase_of_ne {β : Type} {l : List (Int × β)} {k : Int} {pv : Int × β}
    (h : pv ∈ l) (hne : pv.1 ≠ k) : pv ∈ aerase l k := by
  induction l with
  | nil => simp at h
  | cons hd t ih =>
    obtain ⟨k', v'⟩ := hd
    by_cases hk : k' = k
    · subst hk
      simp [aerase]
      rcases List.mem_cons.1 h with h1 | h1
      · exact absurd (congrArg Prod.fst h1) hne
      · exact h1
    · simp [aerase, hk]
      rcases List.mem_cons.1 h with h1 | h1
      · exact Or.inl h1
      · exact Or.inr (ih h1)

theorem mem_aerase_iff {β : Type} {l : List (Int × β)} {k : Int} {pv : Int × β}
    (hnd : (l.map Prod.fst).Nodup) :
    pv ∈ aerase l k ↔ pv ∈ l ∧ pv.1 ≠ k := by
  constructor
  · intro h
    refine ⟨mem_of_mem_aerase h, ?_⟩
    induction l with
    | nil => simp [aerase] at h
    | cons hd t ih =>
      obtain ⟨k', v'⟩ := hd
      by_cases hk : k' = k
      · subst hk
        simp [aerase] at h
        intro hc
        simp at hnd
        exact hnd.1 pv.2 (by rw [← hc]; simpa using h)
      · simp [aerase, hk] at h
        rcases h with h1 | h1
        · rw [h1]; exact hk
        · exact ih (by simp at hnd; exact hnd.2) h1
  · intro ⟨h1, h2⟩
    exact mem_aerase_of_ne h1 h2

theorem alookup_aerase_none {β : Type} {l : List (Int × β)} {k k' : Int}
    (h : alookup l k = none) : alookup (aerase l k') k = none := by
  rw [alookup_eq_none_iff] at h ⊢
  exact fun pv hpv => h pv (mem_of_mem_aerase hpv)

theorem ainsert_of_none {β : Type} {l : List (Int × β)} {k : Int} (v : β)
    (h : alookup l k = none) : ainsert l k v = (k, v) :: l := by
  simp [ainsert, h]

theorem alookup_first {β : Type} {l : List (Int × β)} {k : Int} {v : β}
    (hnd : (l.map Prod.fst).Nodup) (hmem : (k, v) ∈ l) : alookup l k = some v := by
  induction l with
  | nil => simp at hmem
  | cons hd t ih =>
    obtain ⟨k', v'⟩ := hd
    simp at hnd
    rcases List.mem_cons.1 hmem with h1 | h1
    · have hk : k' = k := (congrArg Prod.fst h1).symm
      have hv : v' = v := (congrArg Prod.snd h1).symm
      simp [alookup, hk, hv]
    · have hk : k' ≠ k := by
        intro hc; subst hc
        exact hnd.1 v (by simpa using h1)
      simp [alookup, hk, ih hnd.2 h1]

/-! ### Counting lemmas -/

theorem countP_split {α : Type} (l : List α) (p q : α → Bool) :
    l.countP p = l.countP (fun a => p a && q a) + l.countP (fun a => p a && !q a) := by
  induction l with
  | nil => simp
  | cons a t ih =>
    by_cases hp : p a
    · by_cases hq : q a
      · simp [List.countP_cons, hp, hq, ih]; omega
      · simp [List.countP_cons, hp, hq, ih]; omega
    · simp [List.countP_cons, hp, ih]

theorem countP_mem_range {l : List Nat} {n : Nat} (hnd : l.Nodup)
    (hub : ∀ x ∈ l, x < n) :
    (List.range n).countP (fun x => decide (x ∈ l)) = l.length := by
  induction l with
  | nil => simp
  | cons a t ih =>
    have hnd' : t.Nodup := hnd.of_cons
    have ha : a ∉ t := by simp at hnd; exact hnd.1
    rw [countP_split (List.range n) _ (fun x => decide (x = a))]
    have h1 : (List.range n).countP (fun x => decide (x ∈ a :: t) && decide (x = a))
        = 1 := by
      rw [List.countP_congr (q := fun x => decide (x = a))
        (by
          intro x _
          simp only [Bool.and_eq_true, decide_eq_true_eq, List.mem_cons]
          constructor
          · rintro ⟨_, h⟩; exact h
          · intro h; exact ⟨Or.inl h, h⟩)]
      have h2 : (List.range n).count a = 1 :=
        List.count_eq_one_of_mem (List.nodup_range _)
          (List.mem_range.2 (hub a (by simp)))
      rw [List.count] at h2
      rw [← h2]
      exact List.countP_congr
        (by intro x _; simp only [beq_iff_eq, decide_eq_true_eq])
    have h2 : (List.range n).countP (fun x => decide (x ∈ a :: t) && !decide (x = a))
        = t.length := by
      rw [List.countP_congr (q := fun x => decide (x ∈ t))
        (by
          intro x _
          simp only [Bool.and_eq_true, decide_eq_true_eq, Bool.not_eq_eq_eq_not,
            Bool.not_true, decide_eq_false_iff_not, List.mem_cons]
          constructor
          · rintro ⟨h1 | h1, h2⟩
            · exact absurd h1 h2
            · exact h1
          · intro h
            exact ⟨Or.inr h, fun hc => ha (hc ▸ h)⟩)]
      exact ih hnd' (fun x hx => hub x (by simp [hx]))
    rw [h1, h2]
    simp [Nat.add_comm]

/-! ### Frame array and replacer access lemmas -/

theorem frameAt_set_self {s : BPM} {fid : Nat} (fr : Frame) (h : fid < s.pages.length) :
    ((s.pages.set fid fr)[fid]?).getD defaultFrame = fr := by
  rw [List.getElem?_set_self (l := s.pages) (i := fid) (a := fr) h]
  rfl

theorem frameAt_set_ne {s : BPM} {fid fid' : Nat} (fr : Frame) (h : fid ≠ fid') :
    ((s.pages.set fid fr)[fid']?).getD defaultFrame
      = (s.pages[fid']?).getD defaultFrame := by
  rw [List.getElem?_set_ne (l := s.pages) (a := fr) h]

theorem LRURep.victim_of_getLast {r : LRURep} {f : Nat}
    (hf : r.queue.getLast? = some f) :
    r.victim = (some f, { r with queue := r.queue.dropLast, size := r.size - 1 }) := by
  have hne : r.queue ≠ [] := by
    intro h; rw [h] at hf; simp [List.getLast?] at hf
  unfold LRURep.victim LRURep.queuePop
  simp [List.isEmpty_iff, hne, hf]

theorem LRURep.victim_none {r : LRURep} (h : r.queue = []) : r.victim = (none, r) := by
  unfold LRURep.victim
  simp [h]

theorem LRURep.pin_mem {r : LRURep} {f : Nat} (h : f ∈ r.queue) :
    r.pin f = { r with queue := r.queue.erase f, size := r.size - 1 } := by
  simp [LRURep.pin, h]

theorem LRURep.pin_not_mem {r : LRURep} {f : Nat} (h : f ∉ r.queue) : r.pin f = r := by
  simp [LRURep.pin, h]

theorem LRURep.unpin_not_mem {r : LRURep} {f : Nat} (h : f ∉ r.queue) :
    r.unpin f = { r with queue := f :: r.queue, size := r.size + 1 } := by
  simp [LRURep.unpin, h]

theorem dropLast_getLast_facts {l : List Nat} {f : Nat} (hnd : l.Nodup)
    (hf : l.getLast? = some f) :
    f ∈ l ∧ f ∉ l.dropLast ∧ (∀ x ∈ l.dropLast, x ∈ l) ∧ l.dropLast.Nodup ∧
      (∀ x ∈ l, x = f ∨ x ∈ l.dropLast) ∧ l.dropLast.length = l.length - 1 := by
  have hne : l ≠ [] := by
    intro h; rw [h] at hf; simp [List.getLast?] at hf
  have hdec : l.dropLast ++ [l.getLast hne] = l := List.dropLast_concat_getLast hne
  have hgl : l.getLast hne = f := by
    have := List.getLast?_eq_getLast l hne
    rw [this] at hf
    exact Option.some.inj hf
  rw [hgl] at hdec
  constructor
  · exact List.mem_of_mem_getLast? hf
  have hnd2 : (l.dropLast ++ [f]).Nodup := by rw [hdec]; exact hnd
  have hnotin : f ∉ l.dropLast := by
    intro hmem
    rcases List.nodup_append.1 hnd2 with ⟨_, _, hdisj⟩
    exact hdisj hmem (by simp)
  refine ⟨hnotin, fun x hx => (List.dropLast_sublist l).mem hx,
    (List.dropLast_sublist l).nodup hnd, ?_, ?_⟩
  · intro x hx
    rw [← hdec] at hx
    rcases List.mem_append.1 hx with h1 | h1
    · exact Or.inr h1
    · simp at h1; exact Or.inl h1
  · exact List.length_dropLast l

/-! ### Path equations for the buffer pool operations -/

theorem fetchPage_hit {s : BPM} {pid : Int} {fid : Nat}
    (h : alookup s.page_table pid = some fid) :
    s.fetchPage pid =
      (some fid,
        { s with replacer := s.replacer.pin fid,
                  pages := s.pages.set fid
                    { s.frameAt fid with pin_count := (s.frameAt fid).pin_count + 1 } },
        []) := by
  simp [BPM.fetchPage, h]

theorem fetchPage_free {s : BPM} {pid : Int} {fid : Nat} {rest : List Nat}
    (h : alookup s.page_table pid = none) (hf : s.free_list = fid :: rest) :
    s.fetchPage pid =
      (some fid,
        { s with free_list := rest,
                  page_table := ainsert s.page_table pid fid,
                  pages := s.pages.set fid
                    { page_id := pid, pin_count := 1, is_dirty := false,
                      data := s.disk.readPage pid } },
        [BPEvent.tableInsert pid fid, BPEvent.readPage pid]) := by
  simp [BPM.fetchPage, h, hf]

theorem fetchPage_nofree {s : BPM} {pid : Int} {rep : LRURep}
    (h : alookup s.page_table pid = none) (hf : s.free_list = [])
    (hv : s.replacer.victim = (none, rep)) :
    s.fetchPage pid = (none, { s with replacer := rep }, []) := by
  simp [BPM.fetchPage, h, hf, hv]

theorem fetchPage_vic {s : BPM} {pid : Int} {fid : Nat} {rep : LRURep}
    (h : alookup s.page_table pid = none) (hf : s.free_list = [])
    (hv : s.replacer.victim = (some fid, rep)) :
    s.fetchPage pid =
      (some fid,
        { s with replacer := rep,
                  page_table :=
                    ainsert (aerase s.page_table (s.frameAt fid).page_id) pid fid,
                  disk :=
                    if (s.frameAt fid).is_dirty then
                      s.disk.writePage (s.frameAt fid).page_id (s.frameAt fid).data
                    else s.disk,
                  pages := s.pages.set fid
                    { page_id := pid, pin_count := 1, is_dirty := false,
                      data :=
                        (if (s.frameAt fid).is_dirty then
                          s.disk.writePage (s.frameAt fid).page_id (s.frameAt fid).data
                        else s.disk).readPage pid } },
        (if (s.frameAt fid).is_dirty then
          [BPEvent.writePage (s.frameAt fid).page_id (s.frameAt fid).data]
        else []) ++
          [BPEvent.tableErase (s.frameAt fid).page_id, BPEvent.tableInsert pid fid,
            BPEvent.readPage pid]) := by
  simp [BPM.fetchPage, h, hf, hv]

theorem unpinPage_miss {s : BPM} {pid : Int} {d : Bool}
    (h : alookup s.page_table pid = none) :
    s.unpinPage pid d = (false, s) := by
  simp [BPM.unpinPage, h]

theorem unpinPage_zero {s : BPM} {pid : Int} {d : Bool} {fid : Nat}
    (h : alookup s.page_table pid = some fid)
    (hp : (s.frameAt fid).pin_count ≤ 0) :
    s.unpinPage pid d = (false, s) := by
  simp [BPM.unpinPage, h, hp]

theorem unpinPage_act {s : BPM} {pid : Int} {d : Bool} {fid : Nat}
    (h : alookup s.page_table pid = some fid)
    (hp : 0 < (s.frameAt fid).pin_count) :
    s.unpinPage pid d =
      (true,
        { s with
            pages := s.pages.set fid
              { s.frameAt fid with
                  is_dirty := if ¬(s.frameAt fid).is_dirty then d
                    else (s.frameAt fid).is_dirty,
                  pin_count := (s.frameAt fid).pin_count - 1 },
            replacer := if (s.frameAt fid).pin_count - 1 = 0 then
                s.replacer.unpin fid
              else s.replacer }) := by
  have hnle : ¬(s.frameAt fid).pin_count ≤ 0 := not_le.2 hp
  simp [BPM.unpinPage, h, hnle]

theorem flushPage_miss {s : BPM} {pid : Int}
    (h : alookup s.page_table pid = none) :
    s.flushPage pid = (false, s, []) := by
  simp [BPM.flushPage, h]

theorem flushPage_hit {s : BPM} {pid : Int} {fid : Nat}
    (h : alookup s.page_table pid = some fid) :
    s.flushPage pid =
      (true,
        { s with
            disk := if (s.frameAt fid).is_dirty then
                s.disk.writePage (s.frameAt fid).page_id (s.frameAt fid).data
              else s.disk,
            pages := s.pages.set fid { s.frameAt fid with is_dirty := false } },
        if (s.frameAt fid).is_dirty then
          [BPEvent.writePage (s.frameAt fid).page_id (s.frameAt fid).data]
        else []) := by
  simp [BPM.flushPage, h]

theorem newPage_guard {s : BPM} (h1 : s.free_list = []) (h2 : s.replacer.size = 0) :
    s.newPage = (none, s, []) := by
  simp [BPM.newPage, h1, h2, LRURep.sizeOf]

theorem newPage_free {s : BPM} {fid : Nat} {rest : List Nat}
    (hf : s.free_list = fid :: rest) :
    s.newPage =
      (some (s.disk.next, fid),
        { s with free_list := rest,
                  disk := { s.disk with next := s.disk.next + 1 },
                  pages := s.pages.set fid
                    { page_id := s.disk.next, pin_count := 1, is_dirty := false,
                      data := 0 },
                  page_table := ainsert s.page_table s.disk.next fid },
        [BPEvent.allocPage s.disk.next, BPEvent.tableInsert s.disk.next fid]) := by
  simp [BPM.newPage, hf, DiskMgr.allocatePage]

theorem newPage_nofree {s : BPM} {rep : LRURep}
    (hf : s.free_list = []) (hs : s.replacer.size ≠ 0)
    (hv : s.replacer.victim = (none, rep)) :
    s.newPage = (none, { s with replacer := rep }, []) := by
  simp [BPM.newPage, hf, hs, LRURep.sizeOf, hv]

theorem newPage_vic {s : BPM} {fid : Nat} {rep : LRURep}
    (hf : s.free_list = []) (hs : s.replacer.size ≠ 0)
    (hv : s.replacer.victim = (some fid, rep)) :
    s.newPage =
      (some ((if (s.frameAt fid).is_dirty then
          s.disk.writePage (s.frameAt fid).page_id (s.frameAt fid).data
        else s.disk).next, fid),
        { s with replacer := rep,
                  page_table :=
                    ainsert (aerase s.page_table (s.frameAt fid).page_id)
                      (if (s.frameAt fid).is_dirty then
                          s.disk.writePage (s.frameAt fid).page_id (s.frameAt fid).data
                        else s.disk).next fid,
                  disk :=
                    { (if (s.frameAt fid).is_dirty then
                        s.disk.writePage (s.frameAt fid).page_id (s.frameAt fid).data
                      else s.disk) with
                        next := (if (s.frameAt fid).is_dirty then
                            s.disk.writePage (s.frameAt fid).page_id
                              (s.frameAt fid).data
                          else s.disk).next + 1 },
                  pages := s.pages.set fid
                    { page_id := (if (s.frameAt fid).is_dirty then
                          s.disk.writePage (s.frameAt fid).page_id (s.frameAt fid).data
                        else s.disk).next,
                      pin_count := 1, is_dirty := false, data := 0 } },
        (if (s.frameAt fid).is_dirty then
          [BPEvent.writePage (s.frameAt fid).page_id (s.frameAt fid).data]
        else []) ++
          [BPEvent.tableErase (s.frameAt fid).page_id,
            BPEvent.allocPage (if (s.frameAt fid).is_dirty then
                s.disk.writePage (s.frameAt fid).page_id (s.frameAt fid).data
              else s.disk).next,
            BPEvent.tableInsert (if (s.frameAt fid).is_dirty then
                s.disk.writePage (s.frameAt fid).page_id (s.frameAt fid).data
              else s.disk).next fid]) := by
  simp [BPM.newPage, hf, hs, LRURep.sizeOf, hv, DiskMgr.allocatePage]

theorem deletePage_miss {s : BPM} {pid : Int}
    (h : alookup s.page_table pid = none) :
    s.deletePage pid = (true, s, []) := by
  simp [BPM.deletePage, h]

theorem deletePage_pinned {s : BPM} {pid : Int} {fid : Nat}
    (h : alookup s.page_table pid = some fid)
    (hp : (s.frameAt fid).pin_count ≠ 0) :
    s.deletePage pid = (false, s, []) := by
  simp [BPM.deletePage, h, hp]

theorem deletePage_act {s : BPM} {pid : Int} {fid : Nat}
    (h : alookup s.page_table pid = some fid)
    (hp : (s.frameAt fid).pin_count = 0) :
    s.deletePage pid =
      (true,
        { s with page_table := aerase s.page_table pid,
                  pages := s.pages.set fid defaultFrame,
                  replacer := s.replacer.pin fid,
                  free_list := s.free_list ++ [fid],
                  disk := s.disk.deallocatePage pid },
        [BPEvent.deallocPage pid]) := by
  simp [BPM.deletePage, h, hp]

/-! ### The buffer pool invariant -/

/-- State invariant of the buffer pool, maintained by every public
operation.  The clauses say: the frame array has pool-size length;
free list and replacer queue are duplicate-free, mutually disjoint
sets of in-range frames with pin count zero; the replacer size
counter equals its queue length; free frames are not resident;
replacer frames are resident; every other frame in range is pinned;
the page table is a bijection between resident page ids and their
frames, consistent with the page id stored in each frame; a resident
frame with pin count zero is in the replacer. -/
structure BPMInv (s : BPM) : Prop where
  pagesLen : s.pages.length = s.pool_size
  freeNodup : s.free_list.Nodup
  repNodup : s.replacer.queue.Nodup
  sizeSync : s.replacer.size = s.replacer.queue.length
  freeLt : ∀ fid ∈ s.free_list, fid < s.pool_size
  freePin : ∀ fid ∈ s.free_list, (s.frameAt fid).pin_count = 0
  freeRep : ∀ fid ∈ s.free_list, fid ∉ s.replacer.queue
  freeTab : ∀ fid ∈ s.free_list, ∀ pv ∈ s.page_table, pv.2 ≠ fid
  repLt : ∀ fid ∈ s.replacer.queue, fid < s.pool_size
  repPin : ∀ fid ∈ s.replacer.queue, (s.frameAt fid).pin_count = 0
  repTab : ∀ fid ∈ s.replacer.queue, ∃ pv ∈ s.page_table, pv.2 = fid
  cover : ∀ fid, fid < s.pool_size → fid ∉ s.free_list → fid ∉ s.replacer.queue →
    0 < (s.frameAt fid).pin_count
  keysNodup : (s.page_table.map Prod.fst).Nodup
  valsNodup : (s.page_table.map Prod.snd).Nodup
  tabLt : ∀ pv ∈ s.page_table, pv.2 < s.pool_size
  tabPid : ∀ pv ∈ s.page_table, (s.frameAt pv.2).page_id = pv.1
  tabRep : ∀ pv ∈ s.page_table, (s.frameAt pv.2).pin_count = 0 → pv.2 ∈ s.replacer.queue

/-- Frame array read after an update, combined form. -/
theorem frameAt_set {s : BPM} {fid : Nat} (fid' : Nat) (fr : Frame)
    (hlen : fid < s.pages.length) :
    ((s.pages.set fid fr)[fid']?).getD defaultFrame
      = if fid' = fid then fr else s.frameAt fid' := by
  by_cases h : fid' = fid
  · subst h; rw [if_pos rfl]; exact frameAt_set_self fr hlen
  · rw [if_neg h]; exact frameAt_set_ne fr (fun hc => h hc.symm)

/-- Frame array read on an explicitly given state record. -/
theorem frameAt_mk (ps : Nat) (pg : List Frame) (fl : List Nat) (rp : LRURep)
    (pt : List (Int × Nat)) (dk : DiskMgr) (x : Nat) :
    (BPM.mk ps pg fl rp pt dk).frameAt x = (pg[x]?).getD defaultFrame := rfl

/-- A victim request that fails leaves the replacer unchanged. -/
theorem LRURep.victim_none_eq {r : LRURep} {rep : LRURep}
    (h : r.victim = (none, rep)) : rep = r := by
  unfold LRURep.victim LRURep.queuePop at h
  by_cases he : r.queue.isEmpty
  · simp [he] at h; exact h.symm
  · cases hg : r.queue.getLast? with
    | none =>
      rw [List.getLast?_eq_none_iff] at hg
      rw [hg] at he; simp at he
    | some f => simp [he, hg] at h

/-- A successful victim pops the last queue element. -/
theorem LRURep.victim_some_eq {r : LRURep} {f : Nat} {rep : LRURep}
    (h : r.victim = (some f, rep)) :
    r.queue.getLast? = some f ∧
      rep = { r with queue := r.queue.dropLast, size := r.size - 1 } := by
  cases hg : r.queue.getLast? with
  | none =>
    have : r.queue = [] := List.getLast?_eq_none_iff.1 hg
    rw [LRURep.victim_none this] at h
    simp at h
  | some g =>
    rw [LRURep.victim_of_getLast hg] at h
    obtain ⟨h1, h2⟩ := Prod.mk.injEq .. ▸ h
    constructor
    · exact h1
    · exact h2.symm

/-- FetchPage preserves the buffer pool invariant. -/
theorem bpmInv_fetchPage (s : BPM) (pid : Int) (hInv : BPMInv s) :
    BPMInv (s.fetchPage pid).2.1 := by
  cases halo : alookup s.page_table pid with
  | some fid =>
    rw [fetchPage_hit halo]
    have hmem : (pid, fid) ∈ s.page_table := alookup_mem halo
    have hfidlt : fid < s.pool_size := hInv.tabLt _ hmem
    have hlen : fid < s.pages.length := by rw [hInv.pagesLen]; exact hfidlt
    have hfree : fid ∉ s.free_list := fun h => hInv.freeTab fid h (pid, fid) hmem rfl
    by_cases hpin : (s.frameAt fid).pin_count = 0
    · have hinq : fid ∈ s.replacer.queue := hInv.tabRep _ hmem hpin
      rw [LRURep.pin_mem hinq]
      dsimp only
      refine ⟨?_, hInv.freeNodup, hInv.repNodup.erase fid, ?_, hInv.freeLt, ?_, ?_,
        hInv.freeTab, ?_, ?_, ?_, ?_, hInv.keysNodup, hInv.valsNodup, hInv.tabLt,
        ?_, ?_⟩
      · simp [List.length_set, hInv.pagesLen]
      · simp [List.length_erase_of_mem hinq, hInv.sizeSync]
      · intro f' hf'
        have hne : f' ≠ fid := fun hc => hInv.freeTab f' hf' (pid, fid) hmem hc.symm
        simp only [BPM.frameAt, frameAt_set f' _ hlen, hne, if_false]
        exact hInv.freePin f' hf'
      · intro f' hf' hc
        exact hInv.freeRep f' hf' (List.mem_of_mem_erase hc)
      · intro f' hf'
        exact hInv.repLt f' (List.mem_of_mem_erase hf')
      · intro f' hf'
        obtain ⟨hne, hq⟩ := (hInv.repNodup.mem_erase_iff).1 hf'
        simp only [BPM.frameAt, frameAt_set f' _ hlen, hne, if_false]
        exact hInv.repPin f' hq
      · intro f' hf'
        exact hInv.repTab f' (List.mem_of_mem_erase hf')
      · intro f' h1 h2 h3
        by_cases hc : f' = fid
        · subst hc
          simp only [BPM.frameAt, frameAt_set f' _ hlen, if_pos rfl]
          show 0 < (s.frameAt f').pin_count + 1
          omega
        · simp only [BPM.frameAt, frameAt_set f' _ hlen, hc, if_false]
          refine hInv.cover f' h1 h2 (fun hq => h3 ?_)
          exact (hInv.repNodup.mem_erase_iff).2 ⟨hc, hq⟩
      · intro pv hpv
        simp only [BPM.frameAt, frameAt_set pv.2 _ hlen]
        by_cases hc : pv.2 = fid
        · rw [if_pos hc]
          have := hInv.tabPid pv hpv
          rw [hc] at this
          exact this
        · rw [if_neg hc]
          exact hInv.tabPid pv hpv
      · intro pv hpv
        simp only [BPM.frameAt, frameAt_set pv.2 _ hlen]
        by_cases hc : pv.2 = fid
        · rw [if_pos hc]
          intro hz
          exfalso
          have hz2 : (s.frameAt fid).pin_count + 1 = 0 := hz
          omega
        · rw [if_neg hc]
          intro hz
          exact (hInv.repNodup.mem_erase_iff).2 ⟨hc, hInv.tabRep pv hpv hz⟩
    · have hninq : fid ∉ s.replacer.queue := fun h => hpin (hInv.repPin fid h)
      have hpos : 0 < (s.frameAt fid).pin_count := by
        have hnf : fid ∉ s.free_list := fun h => hpin (hInv.freePin fid h)
        exact hInv.cover fid hfidlt hnf hninq
      rw [LRURep.pin_not_mem hninq]
      dsimp only
      refine ⟨?_, hInv.freeNodup, hInv.repNodup, hInv.sizeSync, hInv.freeLt, ?_, ?_,
        hInv.freeTab, hInv.repLt, ?_, hInv.repTab, ?_, hInv.keysNodup,
        hInv.valsNodup, hInv.tabLt, ?_, ?_⟩
      · simp [List.length_set, hInv.pagesLen]
      · intro f' hf'
        have hne : f' ≠ fid := fun hc => hInv.freeTab f' hf' (pid, fid) hmem hc.symm
        simp only [BPM.frameAt, frameAt_set f' _ hlen, hne, if_false]
        exact hInv.freePin f' hf'
      · exact hInv.freeRep
      · intro f' hf'
        have hne : f' ≠ fid := fun hc => hninq (hc ▸ hf')
        simp only [BPM.frameAt, frameAt_set f' _ hlen, hne, if_false]
        exact hInv.repPin f' hf'
      · intro f' h1 h2 h3
        by_cases hc : f' = fid
        · subst hc
          simp only [BPM.frameAt, frameAt_set f' _ hlen, if_pos rfl]
          show 0 < (s.frameAt f').pin_count + 1
          omega
        · simp only [BPM.frameAt, frameAt_set f' _ hlen, hc, if_false]
          exact hInv.cover f' h1 h2 h3
      · intro pv hpv
        simp only [BPM.frameAt, frameAt_set pv.2 _ hlen]
        by_cases hc : pv.2 = fid
        · rw [if_pos hc]
          have := hInv.tabPid pv hpv
          rw [hc] at this
          exact this
        · rw [if_neg hc]
          exact hInv.tabPid pv hpv
      · intro pv hpv
        simp only [BPM.frameAt, frameAt_set pv.2 _ hlen]
        by_cases hc : pv.2 = fid
        · rw [if_pos hc]
          intro hz
          exfalso
          have hz2 : (s.frameAt fid).pin_count + 1 = 0 := hz
          omega
        · rw [if_neg hc]
          intro hz
          exact hInv.tabRep pv hpv hz
  | none =>
    cases hf : s.free_list with
    | cons fid rest =>
      rw [fetchPage_free halo hf]
      have hfmem : fid ∈ s.free_list := by rw [hf]; simp
      have hfidlt : fid < s.pool_size := hInv.freeLt fid hfmem
      have hlen : fid < s.pages.length := by rw [hInv.pagesLen]; exact hfidlt
      have hninq : fid ∉ s.replacer.queue := hInv.freeRep fid hfmem
      have hnvals : ∀ pv ∈ s.page_table, pv.2 ≠ fid :=
        fun pv hpv => hInv.freeTab fid hfmem pv hpv
      have hndcons : s.free_list.Nodup := hInv.freeNodup
      rw [hf] at hndcons
      have hfnotrest : fid ∉ rest := by simp at hndcons; exact hndcons.1
      have hrestnd : rest.Nodup := hndcons.of_cons
      rw [ainsert_of_none fid halo]
      dsimp only
      refine ⟨?_, hrestnd, hInv.repNodup, hInv.sizeSync, ?_, ?_, ?_, ?_, hInv.repLt,
        ?_, ?_, ?_, ?_, ?_, ?_, ?_, ?_⟩
      · simp [List.length_set, hInv.pagesLen]
      · intro f' hf'
        exact hInv.freeLt f' (by rw [hf]; simp [hf'])
      · intro f' hf'
        have hne : f' ≠ fid := fun hc => hfnotrest (hc ▸ hf')
        simp only [BPM.frameAt, frameAt_set f' _ hlen, hne, if_false]
        exact hInv.freePin f' (by rw [hf]; simp [hf'])
      · intro f' hf'
        exact hInv.freeRep f' (by rw [hf]; simp [hf'])
      · intro f' hf' pv hpv
        rcases List.mem_cons.1 hpv with h1 | h1
        · rw [h1]
          intro hc
          dsimp only at hc
          refine hfnotrest ?_
          rw [hc]
          exact hf'
        · exact hInv.freeTab f' (by rw [hf]; simp [hf']) pv h1
      · intro f' hf'
        have hne : f' ≠ fid := fun hc => hninq (hc ▸ hf')
        simp only [BPM.frameAt, frameAt_set f' _ hlen, hne, if_false]
        exact hInv.repPin f' hf'
      · intro f' hf'
        obtain ⟨pv, hpv, hpveq⟩ := hInv.repTab f' hf'
        exact ⟨pv, List.mem_cons_of_mem _ hpv, hpveq⟩
      · intro f' h1 h2 h3
        by_cases hc : f' = fid
        · subst hc
          simp only [BPM.frameAt, frameAt_set f' _ hlen, if_pos rfl]
          simp
        · simp only [BPM.frameAt, frameAt_set f' _ hlen, hc, if_false]
          refine hInv.cover f' h1 ?_ h3
          rw [hf]
          simp
          exact ⟨fun hx => hc hx, fun hx => h2 hx⟩
      · simp only [List.map_cons, List.nodup_cons]
        refine ⟨?_, hInv.keysNodup⟩
        intro hc
        obtain ⟨pv, hpv, hpveq⟩ := List.mem_map.1 hc
        rw [alookup_eq_none_iff] at halo
        exact halo pv hpv hpveq
      · simp only [List.map_cons, List.nodup_cons]
        refine ⟨?_, hInv.valsNodup⟩
        intro hc
        obtain ⟨pv, hpv, hpveq⟩ := List.mem_map.1 hc
        exact hnvals pv hpv hpveq
      · intro pv hpv
        rcases List.mem_cons.1 hpv with h1 | h1
        · rw [h1]; exact hfidlt
        · exact hInv.tabLt pv h1
      · intro pv hpv
        rcases List.mem_cons.1 hpv with h1 | h1
        · rw [h1]
          simp [BPM.frameAt, frameAt_set fid _ hlen]
        · have hne : pv.2 ≠ fid := hnvals pv h1
          simp only [BPM.frameAt, frameAt_set pv.2 _ hlen, hne, if_false]
          exact hInv.tabPid pv h1
      · intro pv hpv
        rcases List.mem_cons.1 hpv with h1 | h1
        · rw [h1]
          simp [BPM.frameAt, frameAt_set fid _ hlen]
        · have hne : pv.2 ≠ fid := hnvals pv h1
          simp only [BPM.frameAt, frameAt_set pv.2 _ hlen, hne, if_false]
          exact hInv.tabRep pv h1
    | nil =>
      rcases hvic : s.replacer.victim with ⟨o, rep⟩
      cases o with
      | none =>
        rw [fetchPage_nofree halo hf hvic]
        rw [LRURep.victim_none_eq hvic]
        exact hInv
      | some fid =>
        rw [fetchPage_vic halo hf hvic]
        obtain ⟨hlast, hrepeq⟩ := LRURep.victim_some_eq hvic
        obtain ⟨hinq, hnotdl, hdlsub, hdlnd, hsplit, hdllen⟩ :=
          dropLast_getLast_facts hInv.repNodup hlast
        have hfidlt : fid < s.pool_size := hInv.repLt fid hinq
        have hlen : fid < s.pages.length := by rw [hInv.pagesLen]; exact hfidlt
        obtain ⟨pv0, hpv0, hpv0eq⟩ := hInv.repTab fid hinq
        have hpid0 : (s.frameAt fid).page_id = pv0.1 := by
          have := hInv.tabPid pv0 hpv0
          rw [hpv0eq] at this
          exact this
        have hering : ∀ pv, pv ∈ aerase s.page_table (s.frameAt fid).page_id ↔
            pv ∈ s.page_table ∧ pv.1 ≠ pv0.1 := by
          intro pv
          rw [hpid0]
          exact mem_aerase_iff hInv.keysNodup
        have herval : ∀ pv, pv ∈ aerase s.page_table (s.frameAt fid).page_id →
            pv.2 ≠ fid := by
          intro pv hpv hc
          obtain ⟨hpv1, hpv2⟩ := (hering pv).1 hpv
          have : pv = pv0 := by
            refine List.inj_on_of_nodup_map hInv.valsNodup hpv1 hpv0 ?_
            rw [hc, hpv0eq]
          exact hpv2 (congrArg Prod.fst this)
        have halo2 : alookup (aerase s.page_table (s.frameAt fid).page_id) pid
            = none := alookup_aerase_none halo
        rw [ainsert_of_none fid halo2, hrepeq]
        dsimp only
        refine ⟨?_, hInv.freeNodup, hdlnd, ?_, ?_, ?_, ?_, ?_, ?_, ?_, ?_, ?_, ?_,
          ?_, ?_, ?_, ?_⟩
        · simp [List.length_set, hInv.pagesLen]
        · simp [hdllen, hInv.sizeSync]
        · intro f' hf'
          rw [hf] at hf'
          simp at hf'
        · intro f' hf'
          rw [hf] at hf'
          simp at hf'
        · intro f' hf'
          rw [hf] at hf'
          simp at hf'
        · intro f' hf'
          rw [hf] at hf'
          simp at hf'
        · intro f' hf'
          exact hInv.repLt f' (hdlsub f' hf')
        · intro f' hf'
          have hne : f' ≠ fid := fun hc => hnotdl (hc ▸ hf')
          simp only [BPM.frameAt, frameAt_set f' _ hlen, hne, if_false]
          exact hInv.repPin f' (hdlsub f' hf')
        · intro f' hf'
          obtain ⟨pv, hpv, hpveq⟩ := hInv.repTab f' (hdlsub f' hf')
          have hne : f' ≠ fid := fun hc => hnotdl (hc ▸ hf')
          have hpvne : pv ≠ pv0 := by
            intro hc
            exact hne (by rw [← hpveq, hc, hpv0eq])
          have hkey : pv.1 ≠ pv0.1 := by
            intro hc
            exact hpvne (List.inj_on_of_nodup_map hInv.keysNodup hpv hpv0 hc)
          refine ⟨pv, ?_, hpveq⟩
          exact List.mem_cons_of_mem _ ((hering pv).2 ⟨hpv, hkey⟩)
        · intro f' h1 h2 h3
          by_cases hc : f' = fid
          · subst hc
            simp only [BPM.frameAt, frameAt_set f' _ hlen, if_pos rfl]
            simp
          · simp only [BPM.frameAt, frameAt_set f' _ hlen, hc, if_false]
            refine hInv.cover f' h1 h2 (fun hq => ?_)
            rcases hsplit f' hq with h4 | h4
            · exact hc h4
            · exact h3 h4
        · simp only [List.map_cons, List.nodup_cons]
          constructor
          · intro hc
            obtain ⟨pv, hpv, hpveq⟩ := List.mem_map.1 hc
            rw [alookup_eq_none_iff] at halo2
            exact halo2 pv hpv hpveq
          · exact ((aerase_sublist _ _).map Prod.fst).nodup hInv.keysNodup
        · simp only [List.map_cons, List.nodup_cons]
          constructor
          · intro hc
            obtain ⟨pv, hpv, hpveq⟩ := List.mem_map.1 hc
            exact herval pv hpv hpveq
          · exact ((aerase_sublist _ _).map Prod.snd).nodup hInv.valsNodup
        · intro pv hpv
          rcases List.mem_cons.1 hpv with h1 | h1
          · rw [h1]; exact hfidlt
          · exact hInv.tabLt pv (mem_of_mem_aerase h1)
        · intro pv hpv
          rcases List.mem_cons.1 hpv with h1 | h1
          · rw [h1]
            simp [BPM.frameAt, frameAt_set fid _ hlen]
          · have hne : pv.2 ≠ fid := herval pv h1
            simp only [BPM.frameAt, frameAt_set pv.2 _ hlen, hne, if_false]
            exact hInv.tabPid pv (mem_of_mem_aerase h1)
        · intro pv hpv
          rcases List.mem_cons.1 hpv with h1 | h1
          · rw [h1]
            simp [BPM.frameAt, frameAt_set fid _ hlen]
          · have hne : pv.2 ≠ fid := herval pv h1
            simp only [BPM.frameAt, frameAt_set pv.2 _ hlen, hne, if_false]
            intro hz
            have hq := hInv.tabRep pv (mem_of_mem_aerase h1) hz
            rcases hsplit pv.2 hq with h4 | h4
            · exact absurd h4 hne
            · exact h4

/-- UnpinPage preserves the buffer pool invariant. -/
theorem bpmInv_unpinPage (s : BPM) (pid : Int) (d : Bool) (hInv : BPMInv s) :
    BPMInv (s.unpinPage pid d).2 := by
  cases halo : alookup s.page_table pid with
  | none =>
    rw [unpinPage_miss halo]
    exact hInv
  | some fid =>
    by_cases hple : (s.frameAt fid).pin_count ≤ 0
    · rw [unpinPage_zero halo hple]
      exact hInv
    · have hpos : 0 < (s.frameAt fid).pin_count := not_le.1 hple
      rw [unpinPage_act halo hpos]
      have hmem : (pid, fid) ∈ s.page_table := alookup_mem halo
      have hfidlt : fid < s.pool_size := hInv.tabLt _ hmem
      have hlen : fid < s.pages.length := by rw [hInv.pagesLen]; exact hfidlt
      have hninq : fid ∉ s.replacer.queue := fun h => by
        have := hInv.repPin fid h
        omega
      have hninf : fid ∉ s.free_list := fun h => by
        have := hInv.freePin fid h
        omega
      by_cases hz : (s.frameAt fid).pin_count - 1 = 0
      · rw [if_pos hz, LRURep.unpin_not_mem hninq]
        refine ⟨?_, hInv.freeNodup, ?_, ?_, hInv.freeLt, ?_, ?_, hInv.freeTab, ?_,
          ?_, ?_, ?_, hInv.keysNodup, hInv.valsNodup, hInv.tabLt, ?_, ?_⟩
        · simp [List.length_set, hInv.pagesLen]
        · exact List.nodup_cons.2 ⟨hninq, hInv.repNodup⟩
        · simp [hInv.sizeSync]
        · intro f' hf'
          have hne : f' ≠ fid := fun hc => hninf (hc ▸ hf')
          simp only [BPM.frameAt, frameAt_set f' _ hlen, hne, if_false]
          exact hInv.freePin f' hf'
        · intro f' hf'
          simp only [List.mem_cons]
          push_neg
          exact ⟨fun hc => hninf (hc ▸ hf'), hInv.freeRep f' hf'⟩
        · intro f' hf'
          rcases List.mem_cons.1 hf' with h1 | h1
          · rw [h1]; exact hfidlt
          · exact hInv.repLt f' h1
        · intro f' hf'
          rcases List.mem_cons.1 hf' with h1 | h1
          · rw [h1]
            simp only [BPM.frameAt, frameAt_set fid _ hlen, if_pos rfl]
            exact hz
          · have hne : f' ≠ fid := fun hc => hninq (hc ▸ h1)
            simp only [BPM.frameAt, frameAt_set f' _ hlen, hne, if_false]
            exact hInv.repPin f' h1
        · intro f' hf'
          rcases List.mem_cons.1 hf' with h1 | h1
          · exact ⟨(pid, fid), hmem, h1.symm⟩
          · exact hInv.repTab f' h1
        · intro f' h1 h2 h3
          have hne : f' ≠ fid := fun hc => h3 (by rw [hc]; simp)
          have hnq : f' ∉ s.replacer.queue := fun hq => h3 (List.mem_cons_of_mem _ hq)
          simp only [BPM.frameAt, frameAt_set f' _ hlen, hne, if_false]
          exact hInv.cover f' h1 h2 hnq
        · intro pv hpv
          by_cases hc : pv.2 = fid
          · simp only [BPM.frameAt, hc, frameAt_set fid _ hlen, if_pos rfl]
            have := hInv.tabPid pv hpv
            rw [hc] at this
            exact this
          · simp only [BPM.frameAt, frameAt_set pv.2 _ hlen, hc, if_false]
            exact hInv.tabPid pv hpv
        · intro pv hpv
          by_cases hc : pv.2 = fid
          · intro _
            rw [hc]
            simp
          · simp only [BPM.frameAt, frameAt_set pv.2 _ hlen, hc, if_false]
            intro hz2
            exact List.mem_cons_of_mem _ (hInv.tabRep pv hpv hz2)
      · rw [if_neg hz]
        have hpos2 : 0 < (s.frameAt fid).pin_count - 1 := by omega
        refine ⟨?_, hInv.freeNodup, hInv.repNodup, hInv.sizeSync, hInv.freeLt, ?_,
          hInv.freeRep, hInv.freeTab, hInv.repLt, ?_, hInv.repTab, ?_,
          hInv.keysNodup, hInv.valsNodup, hInv.tabLt, ?_, ?_⟩
        · simp [List.length_set, hInv.pagesLen]
        · intro f' hf'
          have hne : f' ≠ fid := fun hc => hninf (hc ▸ hf')
          simp only [BPM.frameAt, frameAt_set f' _ hlen, hne, if_false]
          exact hInv.freePin f' hf'
        · intro f' hf'
          have hne : f' ≠ fid := fun hc => hninq (hc ▸ hf')
          simp only [BPM.frameAt, frameAt_set f' _ hlen, hne, if_false]
          exact hInv.repPin f' hf'
        · intro f' h1 h2 h3
          by_cases hc : f' = fid
          · subst hc
            simp only [BPM.frameAt, frameAt_set f' _ hlen, if_pos rfl]
            exact hpos2
          · simp only [BPM.frameAt, frameAt_set f' _ hlen, hc, if_false]
            exact hInv.cover f' h1 h2 h3
        · intro pv hpv
          by_cases hc : pv.2 = fid
          · simp only [BPM.frameAt, hc, frameAt_set fid _ hlen, if_pos rfl]
            have := hInv.tabPid pv hpv
            rw [hc] at this
            exact this
          · simp only [BPM.frameAt, frameAt_set pv.2 _ hlen, hc, if_false]
            exact hInv.tabPid pv hpv
        · intro pv hpv
          by_cases hc : pv.2 = fid
          · simp only [BPM.frameAt, hc, frameAt_set fid _ hlen, if_pos rfl]
            intro hz2
            exact absurd hz2 hz
          · simp only [BPM.frameAt, frameAt_set pv.2 _ hlen, hc, if_false]
            intro hz2
            exact hInv.tabRep pv hpv hz2

theorem ainsert_of_some {β : Type} {l : List (Int × β)} {k : Int} {w : β} (v : β)
    (h : alookup l k = some w) : ainsert l k v = l := by
  simp [ainsert, h]

/-- NewPage preserves the buffer pool invariant.  The case split on
whether the freshly allocated page id is already a page-table key is
needed because the C++ `unordered_map::insert` silently does nothing
in that case; the invariant survives either way. -/
theorem bpmInv_newPage (s : BPM) (hInv : BPMInv s) : BPMInv (s.newPage).2.1 := by
  by_cases hg : s.free_list.isEmpty ∧ s.replacer.size = 0
  · rw [newPage_guard (List.isEmpty_iff.1 hg.1) hg.2]
    exact hInv
  · cases hf : s.free_list with
    | cons fid rest =>
      rw [newPage_free hf]
      have hfmem : fid ∈ s.free_list := by rw [hf]; simp
      have hfidlt : fid < s.pool_size := hInv.freeLt fid hfmem
      have hlen : fid < s.pages.length := by rw [hInv.pagesLen]; exact hfidlt
      have hninq : fid ∉ s.replacer.queue := hInv.freeRep fid hfmem
      have hnvals : ∀ pv ∈ s.page_table, pv.2 ≠ fid :=
        fun pv hpv => hInv.freeTab fid hfmem pv hpv
      have hndcons : s.free_list.Nodup := hInv.freeNodup
      rw [hf] at hndcons
      have hfnotrest : fid ∉ rest := by simp at hndcons; exact hndcons.1
      have hrestnd : rest.Nodup := hndcons.of_cons
      have hcommon : ∀ pt1 : List (Int × Nat),
          ((pt1.map Prod.fst).Nodup ∧ (pt1.map Prod.snd).Nodup ∧
            (∀ pv ∈ pt1, pv.2 < s.pool_size ∧ (s.frameAt pv.2).page_id = pv.1 ∧
              ((s.frameAt pv.2).pin_count = 0 → pv.2 ∈ s.replacer.queue) ∧
              pv.2 ≠ fid) ∨
            pt1 = (s.disk.next, fid) :: s.page_table ∧
            (∀ pv ∈ s.page_table, pv.2 ≠ fid)) → True := fun _ _ => trivial
      clear hcommon
      cases halo : alookup s.page_table s.disk.next with
      | none =>
        rw [ainsert_of_none fid halo]
        refine ⟨?_, hrestnd, hInv.repNodup, hInv.sizeSync, ?_, ?_, ?_, ?_, hInv.repLt,
          ?_, ?_, ?_, ?_, ?_, ?_, ?_, ?_⟩
        · simp [List.length_set, hInv.pagesLen]
        · intro f' hf'
          exact hInv.freeLt f' (by rw [hf]; simp [hf'])
        · intro f' hf'
          have hne : f' ≠ fid := fun hc => hfnotrest (hc ▸ hf')
          simp only [BPM.frameAt, frameAt_set f' _ hlen, hne, if_false]
          exact hInv.freePin f' (by rw [hf]; simp [hf'])
        · intro f' hf'
          exact hInv.freeRep f' (by rw [hf]; simp [hf'])
        · intro f' hf' pv hpv
          rcases List.mem_cons.1 hpv with h1 | h1
          · rw [h1]
            intro hc
            dsimp only at hc
            refine hfnotrest ?_
            rw [hc]
            exact hf'
          · exact hInv.freeTab f' (by rw [hf]; simp [hf']) pv h1
        · intro f' hf'
          have hne : f' ≠ fid := fun hc => hninq (hc ▸ hf')
          simp only [BPM.frameAt, frameAt_set f' _ hlen, hne, if_false]
          exact hInv.repPin f' hf'
        · intro f' hf'
          obtain ⟨pv, hpv, hpveq⟩ := hInv.repTab f' hf'
          exact ⟨pv, List.mem_cons_of_mem _ hpv, hpveq⟩
        · intro f' h1 h2 h3
          by_cases hc : f' = fid
          · subst hc
            simp only [BPM.frameAt, frameAt_set f' _ hlen, if_pos rfl]
            simp
          · simp only [BPM.frameAt, frameAt_set f' _ hlen, hc, if_false]
            refine hInv.cover f' h1 ?_ h3
            rw [hf]
            simp
            exact ⟨fun hx => hc hx, fun hx => h2 hx⟩
        · simp only [List.map_cons, List.nodup_cons]
          refine ⟨?_, hInv.keysNodup⟩
          intro hc
          obtain ⟨pv, hpv, hpveq⟩ := List.mem_map.1 hc
          rw [alookup_eq_none_iff] at halo
          exact halo pv hpv hpveq
        · simp only [List.map_cons, List.nodup_cons]
          refine ⟨?_, hInv.valsNodup⟩
          intro hc
          obtain ⟨pv, hpv, hpveq⟩ := List.mem_map.1 hc
          exact hnvals pv hpv hpveq
        · intro pv hpv
          rcases List.mem_cons.1 hpv with h1 | h1
          · rw [h1]; exact hfidlt
          · exact hInv.tabLt pv h1
        · intro pv hpv
          rcases List.mem_cons.1 hpv with h1 | h1
          · rw [h1]
            simp [BPM.frameAt, frameAt_set fid _ hlen]
          · have hne : pv.2 ≠ fid := hnvals pv h1
            simp only [BPM.frameAt, frameAt_set pv.2 _ hlen, hne, if_false]
            exact hInv.tabPid pv h1
        · intro pv hpv
          rcases List.mem_cons.1 hpv with h1 | h1
          · rw [h1]
            simp [BPM.frameAt, frameAt_set fid _ hlen]
          · have hne : pv.2 ≠ fid := hnvals pv h1
            simp only [BPM.frameAt, frameAt_set pv.2 _ hlen, hne, if_false]
            exact hInv.tabRep pv h1
      | some fid2 =>
        rw [ainsert_of_some fid halo]
        refine ⟨?_, hrestnd, hInv.repNodup, hInv.sizeSync, ?_, ?_, ?_, ?_, hInv.repLt,
          ?_, hInv.repTab, ?_, hInv.keysNodup, hInv.valsNodup, hInv.tabLt, ?_, ?_⟩
        · simp [List.length_set, hInv.pagesLen]
        · intro f' hf'
          exact hInv.freeLt f' (by rw [hf]; simp [hf'])
        · intro f' hf'
          have hne : f' ≠ fid := fun hc => hfnotrest (hc ▸ hf')
          simp only [BPM.frameAt, frameAt_set f' _ hlen, hne, if_false]
          exact hInv.freePin f' (by rw [hf]; simp [hf'])
        · intro f' hf'
          exact hInv.freeRep f' (by rw [hf]; simp [hf'])
        · intro f' hf' pv hpv
          exact hInv.freeTab f' (by rw [hf]; simp [hf']) pv hpv
        · intro f' hf'
          have hne : f' ≠ fid := fun hc => hninq (hc ▸ hf')
          simp only [BPM.frameAt, frameAt_set f' _ hlen, hne, if_false]
          exact hInv.repPin f' hf'
        · intro f' h1 h2 h3
          by_cases hc : f' = fid
          · subst hc
            simp only [BPM.frameAt, frameAt_set f' _ hlen, if_pos rfl]
            simp
          · simp only [BPM.frameAt, frameAt_set f' _ hlen, hc, if_false]
            refine hInv.cover f' h1 ?_ h3
            rw [hf]
            simp
            exact ⟨fun hx => hc hx, fun hx => h2 hx⟩
        · intro pv hpv
          have hne : pv.2 ≠ fid := hnvals pv hpv
          simp only [BPM.frameAt, frameAt_set pv.2 _ hlen, hne, if_false]
          exact hInv.tabPid pv hpv
        · intro pv hpv
          have hne : pv.2 ≠ fid := hnvals pv hpv
          simp only [BPM.frameAt, frameAt_set pv.2 _ hlen, hne, if_false]
          exact hInv.tabRep pv hpv
    | nil =>
      have hs : s.replacer.size ≠ 0 := by
        intro hc
        exact hg ⟨by rw [hf]; simp, hc⟩
      rcases hvic : s.replacer.victim with ⟨o, rep⟩
      cases o with
      | none =>
        rw [newPage_nofree hf hs hvic]
        rw [LRURep.victim_none_eq hvic]
        exact hInv
      | some fid =>
        rw [newPage_vic hf hs hvic]
        obtain ⟨hlast, hrepeq⟩ := LRURep.victim_some_eq hvic
        obtain ⟨hinq, hnotdl, hdlsub, hdlnd, hsplit, hdllen⟩ :=
          dropLast_getLast_facts hInv.repNodup hlast
        have hfidlt : fid < s.pool_size := hInv.repLt fid hinq
        have hlen : fid < s.pages.length := by rw [hInv.pagesLen]; exact hfidlt
        obtain ⟨pv0, hpv0, hpv0eq⟩ := hInv.repTab fid hinq
        have hpid0 : (s.frameAt fid).page_id = pv0.1 := by
          have := hInv.tabPid pv0 hpv0
          rw [hpv0eq] at this
          exact this
        have hering : ∀ pv, pv ∈ aerase s.page_table (s.frameAt fid).page_id ↔
            pv ∈ s.page_table ∧ pv.1 ≠ pv0.1 := by
          intro pv
          rw [hpid0]
          exact mem_aerase_iff hInv.keysNodup
        have herval : ∀ pv, pv ∈ aerase s.page_table (s.frameAt fid).page_id →
            pv.2 ≠ fid := by
          intro pv hpv hc
          obtain ⟨hpv1, hpv2⟩ := (hering pv).1 hpv
          have : pv = pv0 := by
            refine List.inj_on_of_nodup_map hInv.valsNodup hpv1 hpv0 ?_
            rw [hc, hpv0eq]
          exact hpv2 (congrArg Prod.fst this)
        have hrepmem : ∀ f' ∈ s.replacer.queue.dropLast,
            ∃ pv ∈ aerase s.page_table (s.frameAt fid).page_id, pv.2 = f' := by
          intro f' hf'
          obtain ⟨pv, hpv, hpveq⟩ := hInv.repTab f' (hdlsub f' hf')
          have hne : f' ≠ fid := fun hc => hnotdl (hc ▸ hf')
          have hpvne : pv ≠ pv0 := by
            intro hc
            exact hne (by rw [← hpveq, hc, hpv0eq])
          have hkey : pv.1 ≠ pv0.1 := by
            intro hc
            exact hpvne (List.inj_on_of_nodup_map hInv.keysNodup hpv hpv0 hc)
          exact ⟨pv, (hering pv).2 ⟨hpv, hkey⟩, hpveq⟩
        rw [hrepeq]
        cases halo2 : alookup (aerase s.page_table (s.frameAt fid).page_id)
            (if (s.frameAt fid).is_dirty then
                s.disk.writePage (s.frameAt fid).page_id (s.frameAt fid).data
              else s.disk).next with
        | none =>
          rw [ainsert_of_none fid halo2]
          refine ⟨?_, hInv.freeNodup, hdlnd, ?_, ?_, ?_, ?_, ?_, ?_, ?_, ?_, ?_, ?_,
            ?_, ?_, ?_, ?_⟩
          · simp [List.length_set, hInv.pagesLen]
          · simp [hdllen, hInv.sizeSync]
          · intro f' hf'
            rw [hf] at hf'
            simp at hf'
          · intro f' hf'
            rw [hf] at hf'
            simp at hf'
          · intro f' hf'
            rw [hf] at hf'
            simp at hf'
          · intro f' hf'
            rw [hf] at hf'
            simp at hf'
          · intro f' hf'
            exact hInv.repLt f' (hdlsub f' hf')
          · intro f' hf'
            have hne : f' ≠ fid := fun hc => hnotdl (hc ▸ hf')
            simp only [BPM.frameAt, frameAt_set f' _ hlen, hne, if_false]
            exact hInv.repPin f' (hdlsub f' hf')
          · intro f' hf'
            obtain ⟨pv, hpv, hpveq⟩ := hrepmem f' hf'
            exact ⟨pv, List.mem_cons_of_mem _ hpv, hpveq⟩
          · intro f' h1 h2 h3
            by_cases hc : f' = fid
            · subst hc
              simp only [BPM.frameAt, frameAt_set f' _ hlen, if_pos rfl]
              simp
            · simp only [BPM.frameAt, frameAt_set f' _ hlen, hc, if_false]
              refine hInv.cover f' h1 h2 (fun hq => ?_)
              rcases hsplit f' hq with h4 | h4
              · exact hc h4
              · exact h3 h4
          · simp only [List.map_cons, List.nodup_cons]
            constructor
            · intro hc
              obtain ⟨pv, hpv, hpveq⟩ := List.mem_map.1 hc
              rw [alookup_eq_none_iff] at halo2
              exact halo2 pv hpv hpveq
            · exact ((aerase_sublist _ _).map Prod.fst).nodup hInv.keysNodup
          · simp only [List.map_cons, List.nodup_cons]
            constructor
            · intro hc
              obtain ⟨pv, hpv, hpveq⟩ := List.mem_map.1 hc
              exact herval pv hpv hpveq
            · exact ((aerase_sublist _ _).map Prod.snd).nodup hInv.valsNodup
          · intro pv hpv
            rcases List.mem_cons.1 hpv with h1 | h1
            · rw [h1]; exact hfidlt
            · exact hInv.tabLt pv (mem_of_mem_aerase h1)
          · intro pv hpv
            rcases List.mem_cons.1 hpv with h1 | h1
            · rw [h1]
              simp [BPM.frameAt, frameAt_set fid _ hlen]
            · have hne : pv.2 ≠ fid := herval pv h1
              simp only [BPM.frameAt, frameAt_set pv.2 _ hlen, hne, if_false]
              exact hInv.tabPid pv (mem_of_mem_aerase h1)
          · intro pv hpv
            rcases List.mem_cons.1 hpv with h1 | h1
            · rw [h1]
              simp [BPM.frameAt, frameAt_set fid _ hlen]
            · have hne : pv.2 ≠ fid := herval pv h1
              simp only [BPM.frameAt, frameAt_set pv.2 _ hlen, hne, if_false]
              intro hz
              have hq := hInv.tabRep pv (mem_of_mem_aerase h1) hz
              rcases hsplit pv.2 hq with h4 | h4
              · exact absurd h4 hne
              · exact h4
        | some fid2 =>
          rw [ainsert_of_some fid halo2]
          refine ⟨?_, hInv.freeNodup, hdlnd, ?_, ?_, ?_, ?_, ?_, ?_, ?_, ?_, ?_, ?_,
            ?_, ?_, ?_, ?_⟩
          · simp [List.length_set, hInv.pagesLen]
          · simp [hdllen, hInv.sizeSync]
          · intro f' hf'
            rw [hf] at hf'
            simp at hf'
          · intro f' hf'
            rw [hf] at hf'
            simp at hf'
          · intro f' hf'
            rw [hf] at hf'
            simp at hf'
          · intro f' hf'
            rw [hf] at hf'
            simp at hf'
          · intro f' hf'
            exact hInv.repLt f' (hdlsub f' hf')
          · intro f' hf'
            have hne : f' ≠ fid := fun hc => hnotdl (hc ▸ hf')
            simp only [BPM.frameAt, frameAt_set f' _ hlen, hne, if_false]
            exact hInv.repPin f' (hdlsub f' hf')
          · intro f' hf'
            exact hrepmem f' hf'
          · intro f' h1 h2 h3
            by_cases hc : f' = fid
            · subst hc
              simp only [BPM.frameAt, frameAt_set f' _ hlen, if_pos rfl]
              simp
            · simp only [BPM.frameAt, frameAt_set f' _ hlen, hc, if_false]
              refine hInv.cover f' h1 h2 (fun hq => ?_)
              rcases hsplit f' hq with h4 | h4
              · exact hc h4
              · exact h3 h4
          · exact ((aerase_sublist _ _).map Prod.fst).nodup hInv.keysNodup
          · exact ((aerase_sublist _ _).map Prod.snd).nodup hInv.valsNodup
          · intro pv hpv
            exact hInv.tabLt pv (mem_of_mem_aerase hpv)
          · intro pv hpv
            have hne : pv.2 ≠ fid := herval pv hpv
            simp only [BPM.frameAt, frameAt_set pv.2 _ hlen, hne, if_false]
            exact hInv.tabPid pv (mem_of_mem_aerase hpv)
          · intro pv hpv
            have hne : pv.2 ≠ fid := herval pv hpv
            simp only [BPM.frameAt, frameAt_set pv.2 _ hlen, hne, if_false]
            intro hz
            have hq := hInv.tabRep pv (mem_of_mem_aerase hpv) hz
            rcases hsplit pv.2 hq with h4 | h4
            · exact absurd h4 hne
            · exact h4

/-- DeletePage preserves the buffer pool invariant. -/
theorem bpmInv_deletePage (s : BPM) (pid : Int) (hInv : BPMInv s) :
    BPMInv (s.deletePage pid).2.1 := by
  cases halo : alookup s.page_table pid with
  | none =>
    rw [deletePage_miss halo]
    exact hInv
  | some fid =>
    by_cases hp : (s.frameAt fid).pin_count ≠ 0
    · rw [deletePage_pinned halo hp]
      exact hInv
    · push_neg at hp
      rw [deletePage_act halo hp]
      have hmem : (pid, fid) ∈ s.page_table := alookup_mem halo
      have hfidlt : fid < s.pool_size := hInv.tabLt _ hmem
      have hlen : fid < s.pages.length := by rw [hInv.pagesLen]; exact hfidlt
      have hinq : fid ∈ s.replacer.queue := hInv.tabRep _ hmem hp
      have hninf : fid ∉ s.free_list := fun h => hInv.freeTab fid h (pid, fid) hmem rfl
      have hermem : ∀ pv, pv ∈ aerase s.page_table pid ↔
          pv ∈ s.page_table ∧ pv.1 ≠ pid := fun pv => mem_aerase_iff hInv.keysNodup
      have herval : ∀ pv, pv ∈ aerase s.page_table pid → pv.2 ≠ fid := by
        intro pv hpv hc
        obtain ⟨hpv1, hpv2⟩ := (hermem pv).1 hpv
        have : pv = (pid, fid) := by
          refine List.inj_on_of_nodup_map hInv.valsNodup hpv1 hmem ?_
          rw [hc]
        exact hpv2 (congrArg Prod.fst this)
      rw [LRURep.pin_mem hinq]
      refine ⟨?_, ?_, hInv.repNodup.erase fid, ?_, ?_, ?_, ?_, ?_, ?_, ?_, ?_, ?_,
        ?_, ?_, ?_, ?_, ?_⟩
      · simp [List.length_set, hInv.pagesLen]
      · simp only [List.nodup_append, List.nodup_cons]
        exact ⟨hInv.freeNodup, by simp, by
          intro f' hf' hc
          simp at hc
          exact hninf (hc ▸ hf')⟩
      · simp [List.length_erase_of_mem hinq, hInv.sizeSync]
      · intro f' hf'
        rcases List.mem_append.1 hf' with h1 | h1
        · exact hInv.freeLt f' h1
        · simp at h1
          rw [h1]
          exact hfidlt
      · intro f' hf'
        rcases List.mem_append.1 hf' with h1 | h1
        · have hne : f' ≠ fid := fun hc => hninf (hc ▸ h1)
          simp only [BPM.frameAt, frameAt_set f' _ hlen, hne, if_false]
          exact hInv.freePin f' h1
        · simp at h1
          subst h1
          simp only [BPM.frameAt, frameAt_set f' _ hlen, if_pos rfl]
          rfl
      · intro f' hf' hc
        have hc2 := List.mem_of_mem_erase hc
        rcases List.mem_append.1 hf' with h1 | h1
        · exact hInv.freeRep f' h1 hc2
        · simp at h1
          subst h1
          exact (hInv.repNodup.mem_erase_iff.1 hc).1 rfl
      · intro f' hf' pv hpv
        rcases List.mem_append.1 hf' with h1 | h1
        · exact hInv.freeTab f' h1 pv ((hermem pv).1 hpv).1
        · simp at h1
          subst h1
          exact herval pv hpv
      · intro f' hf'
        exact hInv.repLt f' (List.mem_of_mem_erase hf')
      · intro f' hf'
        obtain ⟨hne, hq⟩ := (hInv.repNodup.mem_erase_iff).1 hf'
        simp only [BPM.frameAt, frameAt_set f' _ hlen, hne, if_false]
        exact hInv.repPin f' hq
      · intro f' hf'
        obtain ⟨hne, hq⟩ := (hInv.repNodup.mem_erase_iff).1 hf'
        obtain ⟨pv, hpv, hpveq⟩ := hInv.repTab f' hq
        have hpvne : pv ≠ (pid, fid) := by
          intro hc
          exact hne (by rw [← hpveq, hc])
        have hkey : pv.1 ≠ pid := by
          intro hc
          refine hpvne (List.inj_on_of_nodup_map hInv.keysNodup hpv hmem ?_)
          rw [hc]
        exact ⟨pv, (hermem pv).2 ⟨hpv, hkey⟩, hpveq⟩
      · intro f' h1 h2 h3
        have hne : f' ≠ fid := by
          intro hc
          exact h2 (by rw [hc]; simp)
        have hninf2 : f' ∉ s.free_list := fun hx => h2 (List.mem_append_left _ hx)
        have hninq2 : f' ∉ s.replacer.queue := fun hx =>
          h3 ((hInv.repNodup.mem_erase_iff).2 ⟨hne, hx⟩)
        simp only [BPM.frameAt, frameAt_set f' _ hlen, hne, if_false]
        exact hInv.cover f' h1 hninf2 hninq2
      · exact ((aerase_sublist _ _).map Prod.fst).nodup hInv.keysNodup
      · exact ((aerase_sublist _ _).map Prod.snd).nodup hInv.valsNodup
      · intro pv hpv
        exact hInv.tabLt pv (mem_of_mem_aerase hpv)
      · intro pv hpv
        have hne : pv.2 ≠ fid := herval pv hpv
        simp only [BPM.frameAt, frameAt_set pv.2 _ hlen, hne, if_false]
        exact hInv.tabPid pv (mem_of_mem_aerase hpv)
      · intro pv hpv
        have hne : pv.2 ≠ fid := herval pv hpv
        simp only [BPM.frameAt, frameAt_set pv.2 _ hlen, hne, if_false]
        intro hz
        exact (hInv.repNodup.mem_erase_iff).2
          ⟨hne, hInv.tabRep pv (mem_of_mem_aerase hpv) hz⟩

/-- The freshly constructed pool satisfies the invariant. -/
theorem bpmInv_mk0 (n : Nat) (d : DiskMgr) : BPMInv (BPM.mk0 n d) := by
  refine ⟨?_, ?_, ?_, ?_, ?_, ?_, ?_, ?_, ?_, ?_, ?_, ?_, ?_, ?_, ?_, ?_, ?_⟩ <;>
    simp [BPM.mk0, LRURep.mk0, List.nodup_range, BPM.frameAt, defaultFrame]

/-- Every operation preserves the invariant. -/
theorem bpmInv_applyOp (s : BPM) (op : BPOp) (h : BPMInv s) :
    BPMInv (BPM.applyOp s op) := by
  cases op with
  | fetch pid => exact bpmInv_fetchPage s pid h
  | unpin pid d => exact bpmInv_unpinPage s pid d h
  | newP => exact bpmInv_newPage s h
  | delete pid => exact bpmInv_deletePage s pid h

/-- Any sequence of operations preserves the invariant. -/
theorem bpmInv_runOps (s : BPM) (ops : List BPOp) (h : BPMInv s) :
    BPMInv (BPM.runOps s ops) := by
  induction ops generalizing s with
  | nil => exact h
  | cons op t ih => exact ih _ (bpmInv_applyOp s op h)

/-- No operation changes the pool size. -/
theorem pool_size_applyOp (s : BPM) (op : BPOp) :
    (BPM.applyOp s op).pool_size = s.pool_size := by
  cases op with
  | fetch pid =>
    show (s.fetchPage pid).2.1.pool_size = s.pool_size
    cases halo : alookup s.page_table pid with
    | some fid => rw [fetchPage_hit halo]
    | none =>
      cases hf : s.free_list with
      | cons fid rest => rw [fetchPage_free halo hf]
      | nil =>
        rcases hvic : s.replacer.victim with ⟨o, rep⟩
        cases o with
        | none => rw [fetchPage_nofree halo hf hvic]
        | some fid => rw [fetchPage_vic halo hf hvic]
  | unpin pid d =>
    show (s.unpinPage pid d).2.pool_size = s.pool_size
    cases halo : alookup s.page_table pid with
    | none => rw [unpinPage_miss halo]
    | some fid =>
      by_cases hple : (s.frameAt fid).pin_count ≤ 0
      · rw [unpinPage_zero halo hple]
      · rw [unpinPage_act halo (not_le.1 hple)]
  | newP =>
    show (s.newPage).2.1.pool_size = s.pool_size
    by_cases hg : s.free_list.isEmpty ∧ s.replacer.size = 0
    · rw [newPage_guard (List.isEmpty_iff.1 hg.1) hg.2]
    · cases hf : s.free_list with
      | cons fid rest => rw [newPage_free hf]
      | nil =>
        have hs : s.replacer.size ≠ 0 := fun hc => hg ⟨by rw [hf]; simp, hc⟩
        rcases hvic : s.replacer.victim with ⟨o, rep⟩
        cases o with
        | none => rw [newPage_nofree hf hs hvic]
        | some fid => rw [newPage_vic hf hs hvic]
  | delete pid =>
    show (s.deletePage pid).2.1.pool_size = s.pool_size
    cases halo : alookup s.page_table pid with
    | none => rw [deletePage_miss halo]
    | some fid =>
      by_cases hp : (s.frameAt fid).pin_count ≠ 0
      · rw [deletePage_pinned halo hp]
      · push_neg at hp
        rw [deletePage_act halo hp]

/-- No sequence of operations changes the pool size. -/
theorem pool_size_runOps (s : BPM) (ops : List BPOp) :
    (BPM.runOps s ops).pool_size = s.pool_size := by
  induction ops generalizing s with
  | nil => rfl
  | cons op t ih =>
    show (BPM.runOps (BPM.applyOp s op) t).pool_size = s.pool_size
    rw [ih _, pool_size_applyOp]

/-- The invariant implies the counted partition of the frames. -/
theorem sum_of_inv (s : BPM) (hInv : BPMInv s) :
    s.free_list.length + s.replacer.sizeOf + s.pinnedCount = s.pool_size := by
  have hfree : (List.range s.pool_size).countP (fun x => decide (x ∈ s.free_list))
      = s.free_list.length :=
    countP_mem_range hInv.freeNodup hInv.freeLt
  have hqueue : (List.range s.pool_size).countP
      (fun x => decide (x ∈ s.replacer.queue)) = s.replacer.queue.length :=
    countP_mem_range hInv.repNodup hInv.repLt
  have htot : (List.range s.pool_size).countP (fun x => decide (x ∈ s.free_list))
      + (List.range s.pool_size).countP (fun x => !decide (x ∈ s.free_list))
      = s.pool_size := by
    have h := countP_split (List.range s.pool_size) (fun _ => true)
      (fun x => decide (x ∈ s.free_list))
    simp only [Bool.true_and, List.countP_true] at h
    rw [List.length_range] at h
    omega
  have hsplit2 := countP_split (List.range s.pool_size)
    (fun x => !decide (x ∈ s.free_list)) (fun x => decide (x ∈ s.replacer.queue))
  have hc1 : (List.range s.pool_size).countP
      (fun x => !decide (x ∈ s.free_list) && decide (x ∈ s.replacer.queue))
      = (List.range s.pool_size).countP (fun x => decide (x ∈ s.replacer.queue)) := by
    refine List.countP_congr ?_
    intro x _
    simp only [Bool.and_eq_true, Bool.not_eq_eq_eq_not, Bool.not_true,
      decide_eq_false_iff_not, decide_eq_true_eq]
    constructor
    · rintro ⟨_, h⟩; exact h
    · intro h; exact ⟨fun hf => hInv.freeRep x hf h, h⟩
  have hc2 : (List.range s.pool_size).countP
      (fun x => !decide (x ∈ s.free_list) && !decide (x ∈ s.replacer.queue))
      = (List.range s.pool_size).countP
          (fun fid => decide (0 < (s.frameAt fid).pin_count)) := by
    refine List.countP_congr ?_
    intro x hx
    rw [List.mem_range] at hx
    simp only [Bool.and_eq_true, Bool.not_eq_eq_eq_not, Bool.not_true,
      decide_eq_false_iff_not, decide_eq_true_eq]
    constructor
    · rintro ⟨h1, h2⟩
      exact hInv.cover x hx h1 h2
    · intro h
      constructor
      · intro hf
        have := hInv.freePin x hf
        omega
      · intro hq
        have := hInv.repPin x hq
        omega
  rw [hfree] at htot
  rw [hc1, hc2, hqueue] at hsplit2
  unfold BPM.pinnedCount LRURep.sizeOf
  rw [hInv.sizeSync]
  omega

/-- C2: for every buffer pool and every sequence of fetch, unpin, new
and delete calls, the free-list length plus the replacer size plus
the number of frames with positive pin count equals the pool size
after each call (every prefix of a call sequence is itself a call
sequence, so this statement covers each intermediate state). -/
theorem c2_pool_partition (n : Nat) (d : DiskMgr) (ops : List BPOp) :
    (BPM.runOps (BPM.mk0 n d) ops).free_list.length
      + (BPM.runOps (BPM.mk0 n d) ops).replacer.sizeOf
      + (BPM.runOps (BPM.mk0 n d) ops).pinnedCount = n := by
  have hInv := bpmInv_runOps _ ops (bpmInv_mk0 n d)
  have hsum := sum_of_inv _ hInv
  rw [pool_size_runOps] at hsum
  exact hsum

/-! ### Flush, unpin and writeback ordering claims -/

/-- A concrete pool state: one NewPage call on a fresh two-frame pool.
The returned page 1 is resident, pinned once and clean. -/
def c4State : BPM := ((BPM.mk0 2 { store := [], next := 1 }).newPage).2.1

/-- Counterexample to C4 as stated: FlushPage on a page-table hit
whose frame is clean returns true but performs no disk write at all
(the write is conditional on the dirty flag, not unconditional), as
shown by the empty event list and the unchanged disk store. -/
theorem c4_flush_counterexample :
    (alookup c4State.page_table 1).isSome = true ∧
      (c4State.frameAt 0).is_dirty = false ∧
      (c4State.flushPage 1).1 = true ∧
      (c4State.flushPage 1).2.2 = [] ∧
      (c4State.flushPage 1).2.1.disk.store = [] := by decide

/-- C4 as amended: FlushPage returns false on a page-table miss and
leaves the state unchanged; on a hit it writes the frame bytes back
iff the frame is dirty, clears the dirty flag, returns true, and
leaves every pin count unchanged. -/
theorem c4_flush_behavior (s : BPM) (pid : Int) :
    (alookup s.page_table pid = none → s.flushPage pid = (false, s, [])) ∧
    (∀ fid, alookup s.page_table pid = some fid →
      (s.flushPage pid).1 = true ∧
      (s.flushPage pid).2.2 =
        (if (s.frameAt fid).is_dirty then
          [BPEvent.writePage (s.frameAt fid).page_id (s.frameAt fid).data]
        else []) ∧
      (s.flushPage pid).2.1.disk =
        (if (s.frameAt fid).is_dirty then
          s.disk.writePage (s.frameAt fid).page_id (s.frameAt fid).data
        else s.disk) ∧
      ((s.flushPage pid).2.1.frameAt fid).is_dirty = false ∧
      (∀ f', ((s.flushPage pid).2.1.frameAt f').pin_count
        = (s.frameAt f').pin_count)) := by
  constructor
  · intro h
    exact flushPage_miss h
  · intro fid h
    rw [flushPage_hit h]
    refine ⟨rfl, rfl, rfl, ?_, ?_⟩
    · by_cases hlen : fid < s.pages.length
      · simp only [frameAt_mk, frameAt_set fid _ hlen, if_pos rfl, if_true]
      · push_neg at hlen
        simp only [frameAt_mk, List.set_eq_of_length_le hlen]
        have hnone : s.pages[fid]? = none := by
          rw [List.getElem?_eq_none_iff]
          exact hlen
        rw [hnone]
        rfl
    · intro f'
      by_cases hlen : fid < s.pages.length
      · by_cases hc : f' = fid
        · subst hc
          simp only [frameAt_mk, frameAt_set f' _ hlen, if_pos rfl, if_true]
        · simp only [frameAt_mk, frameAt_set f' _ hlen, hc, if_false]
      · push_neg at hlen
        simp only [frameAt_mk, List.set_eq_of_length_le hlen]
        rfl

/-- Witness for C4: the amended behavior evaluated on the concrete
clean-page state. -/
theorem c4_flush_behavior_witness :
    alookup c4State.page_table 1 = some 0 ∧
      (c4State.flushPage 1).1 = true ∧ (c4State.flushPage 1).2.2 = [] :=
  ⟨by decide, ((c4_flush_behavior c4State 1).2 0 (by decide)).1, by
    have h := ((c4_flush_behavior c4State 1).2 0 (by decide)).2.1
    rw [h]
    decide⟩

/-- C5: UnpinPage returns false on a miss or a nonpositive pin count,
leaving the state unchanged; otherwise it ORs the dirty hint into the
sticky dirty flag, decrements the pin count, and hands the frame to
the replacer exactly when the count reaches zero.  Moreover a dirty
frame stays dirty across any later UnpinPage call, whatever its
arguments. -/
theorem c5_unpin_dirty_sticky (s : BPM) (pid : Int) (d : Bool) :
    (alookup s.page_table pid = none → s.unpinPage pid d = (false, s)) ∧
    (∀ fid, alookup s.page_table pid = some fid →
      (s.frameAt fid).pin_count ≤ 0 → s.unpinPage pid d = (false, s)) ∧
    (∀ fid, alookup s.page_table pid = some fid →
      0 < (s.frameAt fid).pin_count →
      (s.unpinPage pid d).1 = true ∧
      ((s.unpinPage pid d).2.frameAt fid).is_dirty
        = ((s.frameAt fid).is_dirty || d) ∧
      ((s.unpinPage pid d).2.frameAt fid).pin_count
        = (s.frameAt fid).pin_count - 1 ∧
      (s.unpinPage pid d).2.replacer =
        (if (s.frameAt fid).pin_count - 1 = 0 then s.replacer.unpin fid
        else s.replacer)) ∧
    (∀ f', (s.frameAt f').is_dirty = true →
      ((s.unpinPage pid d).2.frameAt f').is_dirty = true) := by
  refine ⟨fun h => unpinPage_miss h, fun fid h hple => unpinPage_zero h hple,
    ?_, ?_⟩
  · intro fid h hpos
    have hlen : fid < s.pages.length := by
      by_contra hc
      push_neg at hc
      have hnone : s.pages[fid]? = none := List.getElem?_eq_none_iff.2 hc
      have : (s.frameAt fid).pin_count = 0 := by
        show ((s.pages[fid]?).getD defaultFrame).pin_count = 0
        rw [hnone]
        rfl
      omega
    rw [unpinPage_act h hpos]
    refine ⟨rfl, ?_, ?_, rfl⟩
    · simp only [frameAt_mk, frameAt_set fid _ hlen, if_pos rfl, if_true]
      by_cases hd : (s.frameAt fid).is_dirty
      · simp [hd]
      · simp [hd]
    · simp only [frameAt_mk, frameAt_set fid _ hlen, if_pos rfl, if_true]
  · intro f' hf'
    cases halo : alookup s.page_table pid with
    | none => rw [unpinPage_miss halo]; exact hf'
    | some fid =>
      by_cases hple : (s.frameAt fid).pin_count ≤ 0
      · rw [unpinPage_zero halo hple]; exact hf'
      · have hpos : 0 < (s.frameAt fid).pin_count := not_le.1 hple
        have hlen : fid < s.pages.length := by
          by_contra hc
          push_neg at hc
          have hnone : s.pages[fid]? = none := List.getElem?_eq_none_iff.2 hc
          have : (s.frameAt fid).pin_count = 0 := by
            show ((s.pages[fid]?).getD defaultFrame).pin_count = 0
            rw [hnone]
            rfl
          omega
        rw [unpinPage_act halo hpos]
        by_cases hc : f' = fid
        · subst hc
          simp only [frameAt_mk, frameAt_set f' _ hlen, if_pos rfl]
          simp [hf']
        · simp only [frameAt_mk, frameAt_set f' _ hlen, hc, if_false]
          exact hf'

/-- Witness for C5 on the concrete one-new-page state: page 1 is
pinned once, so unpinning succeeds, reaches pin zero and hands frame
0 to the replacer. -/
theorem c5_unpin_dirty_sticky_witness :
    alookup c4State.page_table 1 = some 0 ∧ 0 < (c4State.frameAt 0).pin_count ∧
      (c4State.unpinPage 1 true).1 = true ∧
      ((c4State.unpinPage 1 true).2.frameAt 0).is_dirty = true := by
  refine ⟨by decide, by decide, ?_, ?_⟩
  · exact ((c5_unpin_dirty_sticky c4State 1 true).2.2.1 0 (by decide) (by decide)).1
  · have h := ((c5_unpin_dirty_sticky c4State 1 true).2.2.1 0 (by decide)
      (by decide)).2.1
    rw [h]
    decide

/-- An event is a disk write. -/
def isWriteEv : BPEvent → Bool
  | BPEvent.writePage _ _ => true
  | _ => false

/-- An event is a page-table update (erase of the old entry or
installation of the new one). -/
def isTableEv : BPEvent → Bool
  | BPEvent.tableErase _ => true
  | BPEvent.tableInsert _ _ => true
  | _ => false

/-- Every disk write in the event list occurs strictly before every
page-table update. -/
def writesBeforeTable (evts : List BPEvent) : Prop :=
  ∀ i j, (hi : i < evts.length) → (hj : j < evts.length) →
    isWriteEv (evts.get ⟨i, hi⟩) = true → isTableEv (evts.get ⟨j, hj⟩) = true →
    i < j

/-- If the writes all sit in a prefix free of table updates and the
suffix is free of writes, the ordering property holds. -/
theorem writesBeforeTable_split (l1 l2 : List BPEvent)
    (h1 : ∀ e ∈ l1, isTableEv e = false) (h2 : ∀ e ∈ l2, isWriteEv e = false) :
    writesBeforeTable (l1 ++ l2) := by
  intro i j hi hj hw ht
  have hiL : i < l1.length := by
    by_contra hcon
    push_neg at hcon
    rw [List.get_eq_getElem, List.getElem_append_right hcon] at hw
    rw [h2 _ (List.getElem_mem _)] at hw
    exact Bool.false_ne_true hw
  have hjR : l1.length ≤ j := by
    by_contra hcon
    push_neg at hcon
    rw [List.get_eq_getElem, List.getElem_append_left hcon] at ht
    rw [h1 _ (List.getElem_mem _)] at ht
    exact Bool.false_ne_true ht
  omega

theorem no_write_writesBeforeTable (l : List BPEvent)
    (h : ∀ e ∈ l, isWriteEv e = false) : writesBeforeTable l := by
  have := writesBeforeTable_split [] l (by simp) h
  simpa using this

/-- C6: in FetchPage and NewPage, every disk write of a dirty victim
frame is performed strictly before the page-table erase of the old
entry and the insert of the new one, and a victim taken from the free
list is never written back. -/
theorem c6_writeback_order (s : BPM) (pid : Int) :
    writesBeforeTable (s.fetchPage pid).2.2 ∧
    writesBeforeTable (s.newPage).2.2 ∧
    (alookup s.page_table pid = none → s.free_list ≠ [] →
      ∀ e ∈ (s.fetchPage pid).2.2, isWriteEv e = false) ∧
    (s.free_list ≠ [] → ∀ e ∈ (s.newPage).2.2, isWriteEv e = false) := by
  refine ⟨?_, ?_, ?_, ?_⟩
  · cases halo : alookup s.page_table pid with
    | some fid =>
      rw [fetchPage_hit halo]
      exact no_write_writesBeforeTable _ (by simp)
    | none =>
      cases hf : s.free_list with
      | cons fid rest =>
        rw [fetchPage_free halo hf]
        refine no_write_writesBeforeTable _ ?_
        intro e he
        rcases List.mem_cons.1 he with h1 | h1
        · rw [h1]; rfl
        · simp at h1; rw [h1]; rfl
      | nil =>
        rcases hvic : s.replacer.victim with ⟨o, rep⟩
        cases o with
        | none =>
          rw [fetchPage_nofree halo hf hvic]
          exact no_write_writesBeforeTable _ (by simp)
        | some fid =>
          rw [fetchPage_vic halo hf hvic]
          refine writesBeforeTable_split _ _ ?_ ?_
          · intro e he
            by_cases hd : (s.frameAt fid).is_dirty
            · rw [if_pos hd] at he
              simp at he
              rw [he]
              rfl
            · rw [if_neg hd] at he
              simp at he
          · intro e he
            rcases List.mem_cons.1 he with h1 | h1
            · rw [h1]; rfl
            · rcases List.mem_cons.1 h1 with h2 | h2
              · rw [h2]; rfl
              · simp at h2; rw [h2]; rfl
  · by_cases hg : s.free_list.isEmpty ∧ s.replacer.size = 0
    · rw [newPage_guard (List.isEmpty_iff.1 hg.1) hg.2]
      exact no_write_writesBeforeTable _ (by simp)
    · cases hf : s.free_list with
      | cons fid rest =>
        rw [newPage_free hf]
        refine no_write_writesBeforeTable _ ?_
        intro e he
        rcases List.mem_cons.1 he with h1 | h1
        · rw [h1]; rfl
        · simp at h1; rw [h1]; rfl
      | nil =>
        have hs : s.replacer.size ≠ 0 := fun hc => hg ⟨by rw [hf]; simp, hc⟩
        rcases hvic : s.replacer.victim with ⟨o, rep⟩
        cases o with
        | none =>
          rw [newPage_nofree hf hs hvic]
          exact no_write_writesBeforeTable _ (by simp)
        | some fid =>
          rw [newPage_vic hf hs hvic]
          refine writesBeforeTable_split _ _ ?_ ?_
          · intro e he
            by_cases hd : (s.frameAt fid).is_dirty
            · rw [if_pos hd] at he
              simp at he
              rw [he]
              rfl
            · rw [if_neg hd] at he
              simp at he
          · intro e he
            rcases List.mem_cons.1 he with h1 | h1
            · rw [h1]; rfl
            · rcases List.mem_cons.1 h1 with h2 | h2
              · rw [h2]; rfl
              · simp at h2; rw [h2]; rfl
  · intro halo hfne
    cases hf : s.free_list with
    | nil => exact absurd hf hfne
    | cons fid rest =>
      rw [fetchPage_free halo hf]
      intro e he
      rcases List.mem_cons.1 he with h1 | h1
      · rw [h1]; rfl
      · simp at h1; rw [h1]; rfl
  · intro hfne
    cases hf : s.free_list with
    | nil => exact absurd hf hfne
    | cons fid rest =>
      rw [newPage_free hf]
      intro e he
      rcases List.mem_cons.1 he with h1 | h1
      · rw [h1]; rfl
      · simp at h1; rw [h1]; rfl

/-- Witness for C6 on a concrete state: a fetch on the fresh pool
takes frame 0 from the free list and performs no write. -/
theorem c6_writeback_order_witness :
    alookup (BPM.mk0 2 { store := [], next := 1 }).page_table 5 = none ∧
      (BPM.mk0 2 { store := [], next := 1 }).free_list ≠ [] ∧
      (∀ e ∈ ((BPM.mk0 2 { store := [], next := 1 }).fetchPage 5).2.2,
        isWriteEv e = false) :=
  ⟨by decide, by decide,
    (c6_writeback_order (BPM.mk0 2 { store := [], next := 1 }) 5).2.2.1
      (by decide) (by decide)⟩

/-! ## B+ tree internal page lookup

Embedding of `BPlusTreeInternalPage::Lookup` from
`src/storage/page/b_plus_tree_internal_page.cpp`.  Keys are `Int` and
the comparator is the sign of the difference, as the spec fixes for
the index (a three-way comparator returning the sign of a minus b).
The entry array of length `size` is a `List (Int × Int)` of key and
child page id pairs; slot 0 carries the dummy key. -/

/-- The three-way comparator: sign of `a - b`. -/
def icmp (a b : Int) : Int :=
  if a < b then -1 else if a = b then 0 else 1

theorem icmp_lt {a b : Int} (h : a < b) : icmp a b = -1 := by simp [icmp, h]

theorem icmp_eq {a b : Int} (h : a = b) : icmp a b = 0 := by
  simp [icmp, h]

theorem icmp_gt {a b : Int} (h : b < a) : icmp a b = 1 := by
  have h1 : ¬a < b := by omega
  have h2 : ¬a = b := by omega
  simp [icmp, h1, h2]

theorem icmp_pos_iff {a b : Int} : 0 < icmp a b ↔ b < a := by
  unfold icmp
  split_ifs with h1 h2 <;> constructor <;> intro h <;> omega

/-- The scan loop of `Lookup`, carrying the slot-0 key (for the
sentinel test), the previous entry `array[i-1]`, and the remaining
entries `array[i..]`; each step compares `array[i].first` with the
search key exactly as the source loop does. -/
def lookupGo (k0 : Int) (prev : Int × Int) (rest : List (Int × Int)) (key : Int)
    (fi : Bool) : Int :=
  match rest with
  | [] => prev.2
  | (k, v) :: rest2 =>
      if icmp k key = 0 then v
      else if icmp k key = 1 then
        if fi then
          (if 0 < icmp k0 key then INVALID_PAGE_ID else prev.2)
        else prev.2
      else lookupGo k0 (k, v) rest2 key fi

/-- Method `BPlusTreeInternalPage::Lookup(key, comparator,
from_insert)`: size zero returns `INVALID_PAGE_ID`; otherwise scan
slots `1 .. size-1` and fall through to the last child. -/
def internalLookup (entries : List (Int × Int)) (key : Int) (fi : Bool) : Int :=
  match entries with
  | [] => INVALID_PAGE_ID
  | e0 :: rest => lookupGo e0.1 e0 rest key fi

theorem lookupGo_nil (k0 : Int) (prev : Int × Int) (key : Int) (fi : Bool) :
    lookupGo k0 prev [] key fi = prev.2 := rfl

theorem lookupGo_cons (k0 : Int) (prev : Int × Int) (k v : Int)
    (r : List (Int × Int)) (key : Int) (fi : Bool) :
    lookupGo k0 prev ((k, v) :: r) key fi =
      if icmp k key = 0 then v
      else if icmp k key = 1 then
        if fi then
          (if 0 < icmp k0 key then INVALID_PAGE_ID else prev.2)
        else prev.2
      else lookupGo k0 (k, v) r key fi := rfl

/-- When every remaining key is below the search key, the loop falls
through to the last entry. -/
theorem lookupGo_all_lt {key : Int} (k0 : Int) (prev : Int × Int)
    (rest : List (Int × Int)) (fi : Bool) (hall : ∀ x ∈ rest, x.1 < key) :
    lookupGo k0 prev rest key fi = ((prev :: rest).getLast (by simp)).2 := by
  induction rest generalizing prev with
  | nil => simp [lookupGo_nil, List.getLast]
  | cons e r ih =>
    obtain ⟨k, v⟩ := e
    have hk : k < key := hall (k, v) (by simp)
    have hne0 : ¬icmp k key = 0 := by rw [icmp_lt hk]; decide
    have hne1 : ¬icmp k key = 1 := by rw [icmp_lt hk]; decide
    rw [lookupGo_cons, if_neg hne0, if_neg hne1]
    rw [ih (k, v) (fun x hx => hall x (by simp [hx]))]
    conv_rhs => rw [List.getLast_cons (by simp)]

/-- The loop skips over a prefix of keys below the search key,
updating the carried previous entry to the last skipped one. -/
theorem lookupGo_skip {key : Int} (k0 : Int) (prev : Int × Int)
    (pre rest2 : List (Int × Int)) (fi : Bool) (hall : ∀ x ∈ pre, x.1 < key) :
    lookupGo k0 prev (pre ++ rest2) key fi
      = lookupGo k0 ((prev :: pre).getLast (by simp)) rest2 key fi := by
  induction pre generalizing prev with
  | nil => simp [List.getLast]
  | cons e p ih =>
    obtain ⟨k, v⟩ := e
    have hk : k < key := hall (k, v) (by simp)
    have hne0 : ¬icmp k key = 0 := by rw [icmp_lt hk]; decide
    have hne1 : ¬icmp k key = 1 := by rw [icmp_lt hk]; decide
    rw [List.cons_append, lookupGo_cons, if_neg hne0, if_neg hne1]
    rw [ih (k, v) (fun x hx => hall x (by simp [hx]))]
    conv_rhs => rw [List.getLast_cons (by simp)]

/-- The last element of a cons of a take, as an indexed read. -/
theorem getLast_cons_take {α : Type} (d e0 : α) (l : List α) (i : Nat)
    (h : i ≤ l.length) :
    (e0 :: l.take i).getLast (by simp) = (e0 :: l).getD i d := by
  induction i generalizing e0 l with
  | zero => simp [List.getLast]
  | succ i ih =>
    cases l with
    | nil => simp at h
    | cons x l2 =>
      rw [List.take_succ_cons]
      rw [List.getLast_cons (by simp)]
      rw [ih x l2 (by simp only [List.length_cons] at h; omega)]
      rw [List.getD_cons_succ]

/-- C9: on an internal page of size at least one whose keys at slots
1 and beyond are strictly increasing, Lookup returns the value of the
first slot whose key equals the search key; at the first slot whose
key is strictly greater it returns the previous slot value, except
that with from_insert set and the key below the slot-0 key it returns
INVALID_PAGE_ID; and when no slot key reaches the search key it
returns the last child. -/
theorem c9_internal_lookup (entries : List (Int × Int)) (key : Int) (fi : Bool)
    (hlen : 1 ≤ entries.length)
    (hsorted : List.Chain' (fun a b => a < b) ((entries.map Prod.fst).drop 1)) :
    (∀ i, 1 ≤ i → i < entries.length →
      (∀ j, 1 ≤ j → j < i → (entries.getD j (0, 0)).1 < key) →
      ((entries.getD i (0, 0)).1 = key →
        internalLookup entries key fi = (entries.getD i (0, 0)).2) ∧
      (key < (entries.getD i (0, 0)).1 →
        internalLookup entries key fi =
          (if fi = true ∧ key < (entries.getD 0 (0, 0)).1 then INVALID_PAGE_ID
          else (entries.getD (i - 1) (0, 0)).2))) ∧
    ((∀ j, 1 ≤ j → j < entries.length → (entries.getD j (0, 0)).1 < key) →
      internalLookup entries key fi
        = (entries.getD (entries.length - 1) (0, 0)).2) := by
  clear hsorted
  obtain ⟨e0, rest, rfl⟩ : ∃ e0 rest, entries = e0 :: rest := by
    cases entries with
    | nil => simp at hlen
    | cons a t => exact ⟨a, t, rfl⟩
  constructor
  · intro i h1 h2 hprev
    obtain ⟨i2, rfl⟩ : ∃ i2, i = i2 + 1 := ⟨i - 1, by omega⟩
    have h2r : i2 < rest.length := by
      simp at h2
      omega
    have hprev2 : ∀ j, j < i2 → (rest.getD j (0, 0)).1 < key := by
      intro j hj
      have := hprev (j + 1) (by omega) (by omega)
      rwa [List.getD_cons_succ] at this
    have hallpre : ∀ x ∈ rest.take i2, x.1 < key := by
      intro x hx
      rw [List.mem_take_iff_getElem] at hx
      obtain ⟨j, hj, hxe⟩ := hx
      have hjlt : j < i2 := lt_of_lt_of_le hj inf_le_left
      have hjr : j < rest.length := lt_of_lt_of_le hj inf_le_right
      have hgd := hprev2 j hjlt
      rw [List.getD_eq_get rest _ hjr] at hgd
      have hxg : rest.get ⟨j, hjr⟩ = x := by
        rw [List.get_eq_getElem]
        exact hxe
      rwa [hxg] at hgd
    have hdec : rest = rest.take i2 ++ (rest.get ⟨i2, h2r⟩ :: rest.drop (i2 + 1)) := by
      rw [List.get_cons_drop]
      exact (List.take_append_drop i2 rest).symm
    have hstep : internalLookup (e0 :: rest) key fi
        = lookupGo e0.1 ((e0 :: rest.take i2).getLast (by simp))
            (rest.get ⟨i2, h2r⟩ :: rest.drop (i2 + 1)) key fi := by
      show lookupGo e0.1 e0 rest key fi = _
      conv_lhs => rw [hdec]
      exact lookupGo_skip e0.1 e0 _ _ fi hallpre
    have hgetDi : (e0 :: rest).getD (i2 + 1) (0, 0) = rest.get ⟨i2, h2r⟩ := by
      rw [List.getD_cons_succ, List.getD_eq_get rest _ h2r]
    have hprevLast : (e0 :: rest.take i2).getLast (by simp)
        = (e0 :: rest).getD i2 (0, 0) :=
      getLast_cons_take (0, 0) e0 rest i2 (le_of_lt h2r)
    rcases hkv : rest.get ⟨i2, h2r⟩ with ⟨k, v⟩
    rw [hkv] at hstep hgetDi
    constructor
    · intro heq
      rw [hgetDi] at heq
      rw [hstep]
      rw [lookupGo_cons, if_pos (icmp_eq heq)]
      rw [hgetDi]
    · intro hgt
      rw [hgetDi] at hgt
      rw [hstep]
      have hik : key < k := hgt
      rw [lookupGo_cons]
      have hne0 : ¬icmp k key = 0 := by
        rw [icmp_gt hik]; decide
      rw [if_neg hne0, if_pos (icmp_gt hik)]
      have hk0 : (e0 :: rest).getD 0 (0, 0) = e0 := List.getD_cons_zero
      rw [hk0]
      simp only [Nat.add_sub_cancel]
      by_cases hfi : fi
      · rw [if_pos hfi]
        by_cases hklt : key < e0.1
        · rw [if_pos (icmp_pos_iff.2 hklt), if_pos ⟨hfi, hklt⟩]
        · have hnp : ¬0 < icmp e0.1 key := fun hc => hklt (icmp_pos_iff.1 hc)
          rw [if_neg hnp, if_neg (by intro hc; exact hklt hc.2)]
          rw [hprevLast]
      · rw [if_neg hfi, if_neg (by intro hc; exact hfi hc.1)]
        rw [hprevLast]
  · intro hall
    have hall2 : ∀ x ∈ rest, x.1 < key := by
      intro x hx
      rw [List.mem_iff_get] at hx
      obtain ⟨⟨j, hj⟩, hxe⟩ := hx
      have := hall (j + 1) (by omega) (by simp; omega)
      rw [List.getD_cons_succ, List.getD_eq_get rest _ hj, hxe] at this
      exact this
    show lookupGo e0.1 e0 rest key fi = _
    rw [lookupGo_all_lt e0.1 e0 rest fi hall2]
    rw [List.getLast_eq_get]
    rw [List.getD_eq_get _ _ (by simp)]

/-- Witness for C9 on a concrete internal page with three slots. -/
theorem c9_internal_lookup_witness :
    (1 ≤ ([((0 : Int), (10 : Int)), (5, 11), (9, 12)] : List (Int × Int)).length ∧
      List.Chain' (fun a b => a < b)
        ((([((0 : Int), (10 : Int)), (5, 11), (9, 12)] : List (Int × Int)).map
          Prod.fst).drop 1)) ∧
    internalLookup [((0 : Int), (10 : Int)), (5, 11), (9, 12)] 5 false = 11 ∧
    internalLookup [((0 : Int), (10 : Int)), (5, 11), (9, 12)] 7 false = 11 ∧
    internalLookup [((0 : Int), (10 : Int)), (5, 11), (9, 12)] 20 false = 12 := by
  refine ⟨⟨by decide, by simp [List.chain'_cons]⟩, ?_, ?_, ?_⟩
  · have h := (c9_internal_lookup [((0 : Int), (10 : Int)), (5, 11), (9, 12)] 5 false
      (by decide) (by simp [List.chain'_cons])).1 1 (by decide) (by decide)
      (by intro j hj1 hj2; omega)
    have h2 := h.1 (by decide)
    rw [h2]
    decide
  · have h := (c9_internal_lookup [((0 : Int), (10 : Int)), (5, 11), (9, 12)] 7 false
      (by decide) (by simp [List.chain'_cons])).1 2 (by decide) (by decide)
      (by
        intro j hj1 hj2
        have hj : j = 1 := by omega
        subst hj
        decide)
    have h2 := h.2 (by decide)
    rw [h2]
    decide
  · have h := (c9_internal_lookup [((0 : Int), (10 : Int)), (5, 11), (9, 12)] 20 false
      (by decide) (by simp [List.chain'_cons])).2
      (by
        intro j hj1 hj2
        simp only [List.length_cons, List.length_nil] at hj2
        rcases (by omega : j = 1 ∨ j = 2) with rfl | rfl <;> decide)
    rw [h]
    decide

/-! ## B+ tree index

Embedding of `src/storage/index/b_plus_tree.cpp` over a logical page
store.  The buffer pool is abstracted to an unbounded page heap: a
fetch of a live page always succeeds and bumps that page's pin count,
an unpin decrements it, and a mutation through a pinned page pointer
is a store update.  A fetch of `INVALID_PAGE_ID` or of a deallocated
page — which in the C++ reads garbage bytes from disk and then
reinterprets them as a tree page, an undefined behavior — is
modelled as a failure (`none`) of the whole operation.

The leaf page implementation (`b_plus_tree_leaf_page.cpp`) and the
common page header (`b_plus_tree_page.cpp`) are not part of the
provided sources; their operations are modelled from the spec and
marked as such.  The internal page operations come from
`b_plus_tree_internal_page.cpp`. -/

/-- A B+ tree page: the common header (self id, parent id, max size)
plus the typed body.  A leaf carries sorted key and value entries and
the forward sibling pointer; an internal page carries key and child
pairs whose slot 0 key is a dummy. -/
inductive BNode where
  | leaf (pageId parent maxSize : Int) (entries : List (Int × Int)) (next : Int)
  | internal (pageId parent maxSize : Int) (entries : List (Int × Int))
  deriving Repr, DecidableEq

/-- Header accessor `GetPageId`. -/
def BNode.pageId : BNode → Int
  | BNode.leaf p _ _ _ _ => p
  | BNode.internal p _ _ _ => p

/-- Header accessor `GetParentPageId`. -/
def BNode.parentId : BNode → Int
  | BNode.leaf _ p _ _ _ => p
  | BNode.internal _ p _ _ => p

/-- Header accessor `GetMaxSize`. -/
def BNode.maxSize : BNode → Int
  | BNode.leaf _ _ m _ _ => m
  | BNode.internal _ _ m _ => m

/-- Header accessor `IsLeafPage`. -/
def BNode.isLeaf : BNode → Bool
  | BNode.leaf .. => true
  | BNode.internal .. => false

/-- Header accessor `GetSize`: the number of live entries. -/
def BNode.sizeOf : BNode → Int
  | BNode.leaf _ _ _ e _ => e.length
  | BNode.internal _ _ _ e => e.length

/-- The entry array of either page kind. -/
def BNode.entriesOf : BNode → List (Int × Int)
  | BNode.leaf _ _ _ e _ => e
  | BNode.internal _ _ _ e => e

/-- Modelled from the spec: `GetMinSize` of `b_plus_tree_page.cpp` is
missing from the sources; the spec fixes leaf min size as the ceiling
of (max_size - 1) / 2 and internal min size as the ceiling of
max_size / 2. -/
def BNode.minSize : BNode → Int
  | BNode.leaf _ _ m _ _ => m / 2
  | BNode.internal _ _ m _ => (m + 1) / 2

/-- Header update `SetParentPageId`. -/
def BNode.withParent (n : BNode) (p : Int) : BNode :=
  match n with
  | BNode.leaf pid _ m e nx => BNode.leaf pid p m e nx
  | BNode.internal pid _ m e => BNode.internal pid p m e

/-- State of a B+ tree over the logical page heap: the live pages,
their buffer pin counts, the next page id the disk manager will
allocate, the in-memory root id, the root id persisted in the header
page, and the two fan-out parameters. -/
structure BPT where
  store : List (Int × BNode)
  pins : List (Int × Int)
  nextId : Int
  root_page_id : Int
  headerRoot : Int
  leafMax : Int
  internalMax : Int
  deriving Repr, DecidableEq

/-- A fresh tree handle (constructor `BPlusTree`): empty root.  Page
id 0 is the header page, so allocation starts at 1. -/
def BPT.mkTree (lmax imax : Int) : BPT :=
  { store := [], pins := [], nextId := 1, root_page_id := INVALID_PAGE_ID,
    headerRoot := INVALID_PAGE_ID, leafMax := lmax, internalMax := imax }

/-- Current pin count of a page. -/
def BPT.pinOf (s : BPT) (pid : Int) : Int :=
  (alookup s.pins pid).getD 0

/-- The node stored at a page id, the view through a held pointer. -/
def BPT.nodeAt (s : BPT) (pid : Int) : Option BNode :=
  alookup s.store pid

/-- Increment a pin count (a successful buffer pool fetch). -/
def BPT.pinBump (s : BPT) (pid : Int) : BPT :=
  { s with pins := aupdate s.pins pid (s.pinOf pid + 1) }

/-- `buffer_pool_manager_->FetchPage(pid)` on a tree page: succeeds
with the page content iff the page is live, pinning it. -/
def BPT.fetchPage (s : BPT) (pid : Int) : Option (BNode × BPT) :=
  match s.nodeAt pid with
  | none => none
  | some n => some (n, s.pinBump pid)

/-- `buffer_pool_manager_->UnpinPage(pid, is_dirty)`: false when the
pin count is not positive, otherwise decrement.  The dirty hint does
not affect the logical page heap. -/
def BPT.unpinPage (s : BPT) (pid : Int) (_dirty : Bool) : Bool × BPT :=
  if s.pinOf pid ≤ 0 then (false, s)
  else (true, { s with pins := aupdate s.pins pid (s.pinOf pid - 1) })

/-- `buffer_pool_manager_->NewPage(&pid)`: allocate the next page id
with pin count one.  The caller initializes the bytes. -/
def BPT.newPage (s : BPT) : Int × BPT :=
  (s.nextId,
    { s with nextId := s.nextId + 1, pins := aupdate s.pins s.nextId 1 })

/-- Mutation of a fetched page through its pointer. -/
def BPT.writeNode (s : BPT) (pid : Int) (n : BNode) : BPT :=
  { s with store := aupdate s.store pid n }

/-- `buffer_pool_manager_->DeletePage(pid)`: true on a miss; false
when still pinned; otherwise the page is removed. -/
def BPT.deletePage (s : BPT) (pid : Int) : Bool × BPT :=
  match s.nodeAt pid with
  | none => (true, s)
  | some _ =>
      if s.pinOf pid ≠ 0 then (false, s)
      else (true, { s with store := aerase s.store pid })

/-- Method `UpdateRootPageId`: fetch the header page, insert or
update the record holding the root page id, unpin the header dirty.
Both record operations store the current root id. -/
def BPT.updateRootPageId (s : BPT) (_insert_record : Int) : BPT :=
  let s1 := s.pinBump 0
  let s2 := { s1 with headerRoot := s1.root_page_id }
  (s2.unpinPage 0 true).2

/-- Modelled from the spec: `KeyIndex` of the missing leaf page
implementation, the smallest index whose key is at least the search
key. -/
def leafKeyIndex : List (Int × Int) → Int → Nat
  | [], _ => 0
  | (k, _) :: t, key => if key ≤ k then 0 else leafKeyIndex t key + 1

/-- Modelled from the spec: `Lookup` of the missing leaf page
implementation; on an exact hit it copies the value out and returns
true, modelled as an optional value. -/
def leafLookup : List (Int × Int) → Int → Option Int
  | [], _ => none
  | (k, v) :: t, key => if k = key then some v else leafLookup t key

/-- Modelled from the spec: `Insert` of the missing leaf page
implementation inserts at the sorted position (duplicates are
rejected by the caller via a prior Lookup). -/
def leafInsert : List (Int × Int) → Int → Int → List (Int × Int)
  | [], k, v => [(k, v)]
  | (k2, v2) :: t, k, v =>
      if k < k2 then (k, v) :: (k2, v2) :: t else (k2, v2) :: leafInsert t k v

/-- Modelled from the spec: `RemoveAndDeleteRecord` of the missing
leaf page implementation removes the entry with the key if present. -/
def leafRemove : List (Int × Int) → Int → List (Int × Int)
  | [], _ => []
  | (k2, v2) :: t, k => if k2 = k then t else (k2, v2) :: leafRemove t k

/-- Method `BPlusTreeInternalPage::ValueIndex`: linear scan for the
slot holding the given child pointer, -1 when absent. -/
def valueIndexAux : List (Int × Int) → Int → Nat → Int
  | [], _, _ => -1
  | (_, v2) :: t, v, i => if v2 = v then (i : Int) else valueIndexAux t v (i + 1)

def valueIndex (entries : List (Int × Int)) (v : Int) : Int :=
  valueIndexAux entries v 0

/-- The descent loop of `FindLeafPage`: while the current page is
internal, pick the child by `Lookup(key, cmp, false)` (or slot 0 when
leftmost), unpin the current page clean, fetch the child.  Fuel
bounds the depth; a cyclic parent structure would be undefined
behavior in the source. -/
def BPT.findLeafLoop : Nat → BPT → Int → BNode → Int → Bool → Option (Int × BPT)
  | 0, _, _, _, _, _ => none
  | _ + 1, s, pid, BNode.leaf .., _, _ => some (pid, s)
  | fuel + 1, s, pid, BNode.internal _ _ _ entries, key, leftMost =>
      let child := if leftMost then (entries.getD 0 (0, 0)).2
        else internalLookup entries key false
      let s1 := (s.unpinPage pid false).2
      match s1.fetchPage child with
      | none => none
      | some (cnode, s2) => BPT.findLeafLoop fuel s2 child cnode key leftMost

/-- Method `FindLeafPage`: fetch the root and descend.  Note the
source fetches `root_page_id_` without an emptiness check. -/
def BPT.findLeafPage (fuel : Nat) (s : BPT) (key : Int) (leftMost : Bool) :
    Option (Int × BPT) :=
  match s.fetchPage s.root_page_id with
  | none => none
  | some (node, s1) => BPT.findLeafLoop fuel s1 s.root_page_id node key leftMost

/-- The default-constructed `ValueType value` of `GetValue`, which is
pushed into the result vector even when the lookup misses. -/
def defaultValue : Int := 0

/-- Method `BPlusTree::GetValue`: find the leaf, look the key up,
unconditionally push the (possibly default-initialized) value into
the results, unpin the leaf clean, return whether the key exists. -/
def BPT.getValue (fuel : Nat) (s : BPT) (key : Int) (results : List Int) :
    Option (Bool × List Int × BPT) :=
  match BPT.findLeafPage fuel s key false with
  | none => none
  | some (pid, s1) =>
      match s1.nodeAt pid with
      | some (BNode.leaf _ _ _ entries _) =>
          let looked := leafLookup entries key
          let value := looked.getD defaultValue
          let s2 := (s1.unpinPage pid false).2
          some (looked.isSome, results ++ [value], s2)
      | _ => none

/-- Replace the entry array, keeping the header and (for a leaf) the
next pointer. -/
def BNode.withEntries (n : BNode) (e : List (Int × Int)) : BNode :=
  match n with
  | BNode.leaf pid par mx _ nx => BNode.leaf pid par mx e nx
  | BNode.internal pid par mx _ => BNode.internal pid par mx e

/-- Set the next-sibling pointer of a leaf (no-op on an internal). -/
def BNode.withNext (n : BNode) (nx : Int) : BNode :=
  match n with
  | BNode.leaf pid par mx e _ => BNode.leaf pid par mx e nx
  | BNode.internal pid par mx e => BNode.internal pid par mx e

/-- `GetNextPageId` of a leaf. -/
def BNode.nextOf : BNode → Int
  | BNode.leaf _ _ _ _ nx => nx
  | BNode.internal .. => INVALID_PAGE_ID

/-- Method `SetKeyAt` on an entry array. -/
def setKeyAt (entries : List (Int × Int)) (i : Nat) (k : Int) : List (Int × Int) :=
  entries.set i (k, (entries.getD i (0, 0)).2)

/-- One reparenting step of `CopyNFrom` and friends: fetch the child,
`SetParentPageId`, unpin dirty. -/
def BPT.reparentOne (s : BPT) (child newParent : Int) : Option BPT :=
  match s.fetchPage child with
  | none => none
  | some (n, s1) =>
      let s2 := s1.writeNode child (n.withParent newParent)
      some ((s2.unpinPage child true).2)

/-- Reparent every moved child, in order, as `CopyNFrom` does. -/
def BPT.reparentAll (s : BPT) (items : List (Int × Int)) (np : Int) : Option BPT :=
  match items with
  | [] => some s
  | (_, c) :: t =>
      match s.reparentOne c np with
      | none => none
      | some s1 => BPT.reparentAll s1 t np

/-- Method `StartNewTree`: allocate a leaf, set and persist the root
id, initialize, insert the single entry, unpin dirty. -/
def BPT.startNewTree (s : BPT) (k v : Int) : BPT :=
  let (pid, s1) := s.newPage
  let s2 := { s1 with root_page_id := pid }
  let s3 := s2.updateRootPageId 1
  let s4 := s3.writeNode pid
    (BNode.leaf pid INVALID_PAGE_ID s.leafMax [] INVALID_PAGE_ID)
  let s5 := s4.writeNode pid
    (BNode.leaf pid INVALID_PAGE_ID s.leafMax (leafInsert [] k v) INVALID_PAGE_ID)
  (s5.unpinPage pid true).2

/-- Method `Split` on a leaf: allocate and initialize a sibling with
the same parent, then `MoveHalfTo` (modelled from the spec: the upper
half of the entries, the ceiling of size over two, moves to the new
sibling, which is spliced into the next chain between self and the
old next). -/
def BPT.splitLeaf (s : BPT) (pid : Int) : Option (Int × BPT) :=
  match s.nodeAt pid with
  | some (BNode.leaf _ par mx entries nxt) =>
      let (npid, s1) := s.newPage
      let s2 := s1.writeNode npid
        (BNode.leaf npid par s.leafMax [] INVALID_PAGE_ID)
      let keep := entries.length / 2
      let s3 := s2.writeNode pid (BNode.leaf pid par mx (entries.take keep) npid)
      let s4 := s3.writeNode npid
        (BNode.leaf npid par s.leafMax (entries.drop keep) nxt)
      some (npid, s4)
  | _ => none

/-- Method `Split` on an internal page: allocate and initialize a
sibling, then `MoveHalfTo(recipient, index, bpm)` from the source:
the split point is the ceiling of (size + 1) over 2, lowered by one
when the insertion index is below min size; the moved suffix is
copied with `CopyNFrom`, which reparents every moved child. -/
def BPT.splitInternal (s : BPT) (pid : Int) (index : Int) : Option (Int × BPT) :=
  match s.nodeAt pid with
  | some (BNode.internal _ par mx entries) =>
      let (npid, s1) := s.newPage
      let s2 := s1.writeNode npid (BNode.internal npid par s.internalMax [])
      let sz : Int := entries.length
      let splitIdx0 : Int := (sz + 2) / 2
      let minSz : Int := (mx + 1) / 2
      let splitIdx := if index < minSz then splitIdx0 - 1 else splitIdx0
      let kept := entries.take splitIdx.toNat
      let moved := entries.drop splitIdx.toNat
      match s2.reparentAll moved npid with
      | none => none
      | some s3 =>
          let s4 := s3.writeNode npid (BNode.internal npid par s.internalMax moved)
          let s5 := s4.writeNode pid (BNode.internal pid par mx kept)
          some (npid, s5)
  | _ => none

/-- Method `BPlusTreeInternalPage::InsertNodeAfter`: reparent the new
child to this page; when `old_value` is `INVALID_PAGE_ID`, rotate
slot 0 into slot 1 and put the new pair at slot 0 (the recursive call
of the source, unfolded once — its argument `new_value` is a live
page id, never `INVALID_PAGE_ID` — reparents the rotated child again
and inserts it right after the new slot 0); otherwise insert the new
pair right after the slot whose value equals `old_value`. -/
def BPT.insertNodeAfter (s : BPT) (pid old_value new_key new_value : Int) :
    Option BPT :=
  match s.nodeAt pid with
  | some (BNode.internal _ par mx entries) =>
      match s.reparentOne new_value pid with
      | none => none
      | some s1 =>
          if old_value = INVALID_PAGE_ID then
            match entries with
            | [] => none
            | (k0, v0) :: rest =>
                match s1.reparentOne v0 pid with
                | none => none
                | some s2 =>
                    some (s2.writeNode pid (BNode.internal pid par mx
                      ((new_key, new_value) :: (k0, v0) :: rest)))
          else
            let index := valueIndex entries old_value
            let cut := (index + 1).toNat
            some (s1.writeNode pid (BNode.internal pid par mx
              (entries.take cut ++ (new_key, new_value) :: entries.drop cut)))
  | _ => none

/-- Method `InsertIntoParent`: a split root gets a fresh root via
`PopulateNewRoot` (slot 0 child old, slot 1 the new separator and
child, both children reparented, the slot 0 key left default);
otherwise locate the split child in the parent through
`Lookup(key, cmp, false)` and `ValueIndex`, split the parent first
when it would overflow, route the new entry by the insertion index,
and recurse with the first key of the new parent page.  Fuel bounds
the recursion up the parent chain. -/
def BPT.insertIntoParent : Nat → BPT → Int → Int → Int → Option BPT
  | 0, _, _, _, _ => none
  | fuel + 1, s, oldPid, key, newPid =>
    match s.nodeAt oldPid with
    | none => none
    | some oldNode =>
      if oldNode.parentId = INVALID_PAGE_ID then
        let (parentId, s1) := s.newPage
        let s2 := s1.writeNode parentId
          (BNode.internal parentId INVALID_PAGE_ID s.internalMax [])
        let s3 := s2.writeNode parentId
          (BNode.internal parentId INVALID_PAGE_ID s.internalMax
            [(0, oldPid), (key, newPid)])
        match s3.reparentOne oldPid parentId with
        | none => none
        | some s4 =>
          match s4.reparentOne newPid parentId with
          | none => none
          | some s5 =>
            let s6 := { s5 with root_page_id := parentId }
            let s7 := s6.updateRootPageId 0
            some ((s7.unpinPage parentId true).2)
      else
        match s.fetchPage oldNode.parentId with
        | some (BNode.internal _ _ pmx pentries, s1) =>
            let parentId := oldNode.parentId
            let old_value := internalLookup pentries key false
            let index := valueIndex pentries old_value
            let size : Int := pentries.length
            if size + 1 > pmx then
              match s1.splitInternal parentId index with
              | none => none
              | some (npPid, s2) =>
                  let step : Option BPT :=
                    if index < (pmx + 1) / 2 then
                      s2.insertNodeAfter parentId old_value key newPid
                    else
                      match s2.nodeAt npPid with
                      | some (BNode.internal _ _ _ nentries) =>
                          s2.insertNodeAfter npPid
                            (internalLookup nentries key true) key newPid
                      | _ => none
                  match step with
                  | none => none
                  | some s3 =>
                      match s3.nodeAt npPid with
                      | some nnode =>
                          let new_key := (nnode.entriesOf.getD 0 (0, 0)).1
                          match BPT.insertIntoParent fuel s3 parentId new_key
                              npPid with
                          | none => none
                          | some s4 =>
                              let s5 := (s4.unpinPage parentId true).2
                              some ((s5.unpinPage npPid true).2)
                      | none => none
            else
              match s1.insertNodeAfter parentId old_value key newPid with
              | none => none
              | some s2 => some ((s2.unpinPage parentId true).2)
        | _ => none

/-- Method `InsertIntoLeaf`: find the leaf, reject a duplicate,
insert, split when the post-insert size reaches max size and push the
first key of the new leaf into the parent, then unpin. -/
def BPT.insertIntoLeaf (fuel : Nat) (s : BPT) (k v : Int) : Option (Bool × BPT) :=
  match BPT.findLeafPage fuel s k false with
  | none => none
  | some (pid, s1) =>
      match s1.nodeAt pid with
      | some (BNode.leaf _ par mx entries nxt) =>
          if (leafLookup entries k).isSome then
            some (false, (s1.unpinPage pid false).2)
          else
            let entries2 := leafInsert entries k v
            let s2 := s1.writeNode pid (BNode.leaf pid par mx entries2 nxt)
            if (entries2.length : Int) = mx then
              match s2.splitLeaf pid with
              | none => none
              | some (npid, s3) =>
                  match s3.nodeAt npid with
                  | some (BNode.leaf _ _ _ nentries _) =>
                      match BPT.insertIntoParent fuel s3 pid
                          ((nentries.getD 0 (0, 0)).1) npid with
                      | none => none
                      | some s4 =>
                          let s5 := (s4.unpinPage npid true).2
                          some (true, (s5.unpinPage pid true).2)
                  | _ => none
            else
              some (true, (s2.unpinPage pid true).2)
      | _ => none

/-- Method `BPlusTree::Insert`: start a new tree when empty,
otherwise insert into the located leaf. -/
def BPT.insert (fuel : Nat) (s : BPT) (k v : Int) : Option (Bool × BPT) :=
  if s.root_page_id = INVALID_PAGE_ID then some (true, s.startNewTree k v)
  else BPT.insertIntoLeaf fuel s k v

/-- Method `AdjustRoot`: an internal root with one child promotes the
child (`RemoveAndReturnOnlyChild`, reparent, persist, unpin and
delete the old root); an empty leaf root empties the tree (persist,
unpin and delete); any other root is returned with no action — in
particular a leaf root below min size but nonzero is neither adjusted
nor unpinned. -/
def BPT.adjustRoot (s : BPT) (pid : Int) : Option BPT :=
  match s.nodeAt pid with
  | none => none
  | some node =>
      let size := node.sizeOf
      if size = 1 ∧ node.isLeaf = false then
        let newRootId := (node.entriesOf.getD 0 (0, 0)).2
        let s1 := s.writeNode pid (node.withEntries [])
        let s2 := { s1 with root_page_id := newRootId }
        match s2.fetchPage newRootId with
        | none => none
        | some (newRoot, s3) =>
            let s4 := s3.writeNode newRootId (newRoot.withParent INVALID_PAGE_ID)
            let s5 := (s4.unpinPage newRootId true).2
            let s6 := s5.updateRootPageId 0
            let s7 := (s6.unpinPage pid true).2
            some ((s7.deletePage pid).2)
      else if size = 0 then
        let s1 := { s with root_page_id := INVALID_PAGE_ID }
        let s2 := s1.updateRootPageId 0
        let s3 := (s2.unpinPage pid true).2
        some ((s3.deletePage pid).2)
      else
        some s

/-- Method `Coalesce`: move everything from the higher-index sibling
into the lower-index one (internal pages take the parent separator as
the moved slot 0 key and reparent every moved child), unpin both
pages dirty, delete the emptied page, remove its slot from the
parent, and report whether the parent now underflows. -/
def BPT.coalesce (s : BPT) (neighborId pid parentId : Int) (index : Int) :
    Option (Bool × BPT) :=
  match s.nodeAt pid, s.nodeAt neighborId, s.nodeAt parentId with
  | some node, some neighbor, some (BNode.internal _ ppar pmx pentries) =>
      let step : Option BPT :=
        if node.isLeaf then
          if index = 0 then
            some ((s.writeNode pid
                ((node.withEntries (node.entriesOf ++ neighbor.entriesOf)).withNext
                  neighbor.nextOf)).writeNode
              neighborId (neighbor.withEntries []))
          else
            some ((s.writeNode neighborId
                ((neighbor.withEntries
                  (neighbor.entriesOf ++ node.entriesOf)).withNext
                  node.nextOf)).writeNode
              pid (node.withEntries []))
        else
          if index = 0 then
            let middle := (pentries.getD 1 (0, 0)).1
            let movedEntries :=
              match neighbor.entriesOf with
              | [] => []
              | e0 :: rest => (middle, e0.2) :: rest
            match s.reparentAll movedEntries pid with
            | none => none
            | some s1 =>
                some ((s1.writeNode pid
                    (node.withEntries (node.entriesOf ++ movedEntries))).writeNode
                  neighborId (neighbor.withEntries []))
          else
            let middle := (pentries.getD index.toNat (0, 0)).1
            let movedEntries :=
              match node.entriesOf with
              | [] => []
              | e0 :: rest => (middle, e0.2) :: rest
            match s.reparentAll movedEntries neighborId with
            | none => none
            | some s1 =>
                some ((s1.writeNode neighborId
                    (neighbor.withEntries
                      (neighbor.entriesOf ++ movedEntries))).writeNode
                  pid (node.withEntries []))
      match step with
      | none => none
      | some s1 =>
          let s2 := (s1.unpinPage pid true).2
          let s3 := (s2.unpinPage neighborId true).2
          let s4 :=
            if index = 0 then
              let s4a := (s3.deletePage neighborId).2
              s4a.writeNode parentId
                (BNode.internal parentId ppar pmx (pentries.eraseIdx 1))
            else
              let s4a := (s3.deletePage pid).2
              s4a.writeNode parentId
                (BNode.internal parentId ppar pmx (pentries.eraseIdx index.toNat))
          match s4.nodeAt parentId with
          | some parent2 => some (decide (parent2.sizeOf < parent2.minSize), s4)
          | none => none
  | _, _, _ => none

/-- Method `Redistribute`: move one entry between the siblings (for
internal pages through the parent separator, reparenting the moved
child), then refresh the parent separator from the new first key,
and unpin both pages dirty. -/
def BPT.redistribute (s : BPT) (neighborId pid parentId index : Int) :
    Option BPT :=
  match s.nodeAt pid, s.nodeAt neighborId, s.nodeAt parentId with
  | some node, some neighbor, some (BNode.internal _ ppar pmx pentries) =>
      let step : Option BPT :=
        if node.isLeaf then
          if index = 0 then
            match neighbor.entriesOf with
            | [] => none
            | e :: rest =>
                some ((s.writeNode pid
                    (node.withEntries (node.entriesOf ++ [e]))).writeNode
                  neighborId (neighbor.withEntries rest))
          else
            match neighbor.entriesOf.getLast? with
            | none => none
            | some e =>
                some ((s.writeNode pid
                    (node.withEntries (e :: node.entriesOf))).writeNode
                  neighborId (neighbor.withEntries neighbor.entriesOf.dropLast))
        else
          if index = 0 then
            let middle := (pentries.getD 1 (0, 0)).1
            match neighbor.entriesOf with
            | [] => none
            | e0 :: rest =>
                match s.reparentOne e0.2 pid with
                | none => none
                | some s1 =>
                    some ((s1.writeNode pid
                        (node.withEntries
                          (node.entriesOf ++ [(middle, e0.2)]))).writeNode
                      neighborId (neighbor.withEntries rest))
          else
            let middle := (pentries.getD index.toNat (0, 0)).1
            match neighbor.entriesOf.getLast? with
            | none => none
            | some e =>
                match s.reparentOne e.2 pid with
                | none => none
                | some s1 =>
                    let newEntries :=
                      match node.entriesOf with
                      | [] => [e]
                      | n0 :: nrest => e :: (middle, n0.2) :: nrest
                    some ((s1.writeNode pid
                        (node.withEntries newEntries)).writeNode
                      neighborId (neighbor.withEntries neighbor.entriesOf.dropLast))
      match step with
      | none => none
      | some s1 =>
          let s2 :=
            if index = 0 then
              match s1.nodeAt neighborId with
              | some neighbor2 =>
                  some (s1.writeNode parentId (BNode.internal parentId ppar pmx
                    (setKeyAt pentries 1 (neighbor2.entriesOf.getD 0 (0, 0)).1)))
              | none => none
            else
              match s1.nodeAt pid with
              | some node2 =>
                  some (s1.writeNode parentId (BNode.internal parentId ppar pmx
                    (setKeyAt pentries index.toNat
                      (node2.entriesOf.getD 0 (0, 0)).1)))
              | none => none
          match s2 with
          | none => none
          | some s3 =>
              let s4 := (s3.unpinPage pid true).2
              some ((s4.unpinPage neighborId true).2)
  | _, _, _ => none

/-- Method `CoalesceOrRedistribute`: the root goes to `AdjustRoot`;
otherwise fetch the parent, pick the neighbor (right sibling at index
0, left otherwise), redistribute when both siblings together with the
leaf correction exceed max size, else coalesce, and recurse on an
underflowing parent.  Fuel bounds the recursion up the tree. -/
def BPT.coalesceOrRedistribute : Nat → BPT → Int → Option BPT
  | 0, _, _ => none
  | fuel + 1, s, pid =>
    match s.nodeAt pid with
    | none => none
    | some node =>
      if node.parentId = INVALID_PAGE_ID then
        BPT.adjustRoot s pid
      else
        match s.fetchPage node.parentId with
        | some (BNode.internal _ _ _ pentries, s1) =>
            let parentId := node.parentId
            let index := valueIndex pentries pid
            let neighborId :=
              if index = 0 then (pentries.getD 1 (0, 0)).2
              else (pentries.getD (index - 1).toNat (0, 0)).2
            match s1.fetchPage neighborId with
            | none => none
            | some (neighbor, s2) =>
                let isLeafC : Int := if node.isLeaf then 1 else 0
                if node.sizeOf + neighbor.sizeOf + isLeafC > node.maxSize then
                  match BPT.redistribute s2 neighborId pid parentId index with
                  | none => none
                  | some s3 => some ((s3.unpinPage parentId true).2)
                else
                  match BPT.coalesce s2 neighborId pid parentId index with
                  | none => none
                  | some (notComplete, s3) =>
                      if notComplete then
                        BPT.coalesceOrRedistribute fuel s3 parentId
                      else
                        some ((s3.unpinPage parentId true).2)
        | _ => none

/-- Method `BPlusTree::Remove`: nothing on an empty tree; otherwise
find the leaf, `RemoveAndDeleteRecord`, and either rebalance (when
the leaf underflows) or unpin the leaf clean. -/
def BPT.remove (fuel : Nat) (s : BPT) (key : Int) : Option BPT :=
  if s.root_page_id = INVALID_PAGE_ID then some s
  else
    match BPT.findLeafPage fuel s key false with
    | none => none
    | some (pid, s1) =>
        match s1.nodeAt pid with
        | some (BNode.leaf _ par mx entries nxt) =>
            let entries2 := leafRemove entries key
            let s2 := s1.writeNode pid (BNode.leaf pid par mx entries2 nxt)
            if (entries2.length : Int) < (BNode.leaf pid par mx entries2 nxt).minSize
            then
              BPT.coalesceOrRedistribute fuel s2 pid
            else
              some ((s2.unpinPage pid false).2)
        | _ => none

/-- Run a list of Insert calls, collecting the returned flags. -/
def insertSeq (fuel : Nat) (s : BPT) : List (Int × Int) → Option (List Bool × BPT)
  | [] => some ([], s)
  | (k, v) :: t =>
      match BPT.insert fuel s k v with
      | none => none
      | some (b, s2) =>
          match insertSeq fuel s2 t with
          | none => none
          | some (bs, s3) => some (b :: bs, s3)

/-- The insert-only sequence that loses keys: on a tree with leaf and
internal max size 4, the tenth insert splits a full parent and routes
the new separator through the just-split sibling, leaving that
internal page out of order. -/
def c1Pairs : List (Int × Int) :=
  [3, 5, 2, 11, 9, 12, 1, 4, 7, 6].map (fun k => (k, k * 100 + 7))

/-- A one-key tree for the emptied-tree facet of the same claim. -/
def c1TreeA : BPT :=
  ((BPT.insert 100 (BPT.mkTree 4 4) 5 55).getD (false, BPT.mkTree 4 4)).2

/-- The same tree after removing its only key: the root becomes
`INVALID_PAGE_ID`. -/
def c1TreeB : BPT := (BPT.remove 100 c1TreeA 5).getD c1TreeA

/-- C1: the claim fails on the code in two ways.  First, after the
ten inserts of `c1Pairs` — every one returning true, none removed —
`GetValue(11)` returns false: during the tenth insert the parent
split computes the insertion index before splitting, then routes the
new separator into the new sibling via `Lookup(key, from_insert)`,
which on a one-entry page never reaches its sentinel branch and
returns the last child, so `InsertNodeAfter` places the pair (7, _)
after the pair (11, _), and keys 11 and 12 become unreachable.
Second, `GetValue` has no emptiness guard (unlike Insert, Remove and
begin), so after a Remove that empties the tree it fetches page
`INVALID_PAGE_ID`, modelled as a fault (`none`) rather than a false
return. -/
theorem c1_insert_getvalue_lost_key :
    (insertSeq 100 (BPT.mkTree 4 4) c1Pairs).map Prod.fst
      = some (List.replicate 10 true) ∧
    (insertSeq 100 (BPT.mkTree 4 4) c1Pairs).map
        (fun r => (BPT.getValue 100 r.2 11 []).map (fun g => (g.1, g.2.1)))
      = some (some (false, [0])) ∧
    ((BPT.insert 100 (BPT.mkTree 4 4) 5 55).map Prod.fst = some true ∧
      BPT.remove 100 c1TreeA 5 = some c1TreeB ∧
      c1TreeB.root_page_id = INVALID_PAGE_ID ∧
      BPT.getValue 100 c1TreeB 5 [] = none) := by
  refine ⟨by decide, by decide, by decide, by decide, by decide, by decide⟩

/-- The two-key tree of the pin-leak scenario: a root leaf holding
keys 1 and 2, built by two inserts, every page unpinned. -/
def c3Tree : BPT :=
  ((insertSeq 100 (BPT.mkTree 4 4) [(1, 11), (2, 22)]).getD
    ([], BPT.mkTree 4 4)).2

/-- C3: Remove on a root leaf whose post-deletion size is below min
size but nonzero leaks a pin.  Before the call every pin count is
zero; Remove(1) deletes the key (the root leaf now holds only key 2)
and control reaches AdjustRoot, which takes neither of its branches
and returns without unpinning, so the leaf fetched by Remove keeps
pin count one. -/
theorem c3_remove_pin_leak :
    c3Tree.root_page_id = 1 ∧
    c3Tree.pinOf 1 = 0 ∧
    (BPT.remove 100 c3Tree 1).map
        (fun s => (s.pinOf 1, s.root_page_id, s.nodeAt 1))
      = some (1, 1, some (BNode.leaf 1 INVALID_PAGE_ID 4 [(2, 22)]
          INVALID_PAGE_ID)) := by
  refine ⟨by decide, by decide, by decide⟩

/-- The descent loop only ever returns a leaf page, and it never
changes the page store. -/
theorem findLeafLoop_leaf (fuel : Nat) :
    ∀ (s : BPT) (pid : Int) (node : BNode) (key : Int) (lm : Bool)
      (p2 : Int) (s2 : BPT),
      s.nodeAt pid = some node →
      BPT.findLeafLoop fuel s pid node key lm = some (p2, s2) →
      s2.store = s.store ∧
        ∃ a b c e d, s2.nodeAt p2 = some (BNode.leaf a b c e d) := by
  induction fuel with
  | zero =>
    intro s pid node key lm p2 s2 _ h
    simp [BPT.findLeafLoop] at h
  | succ fuel ih =>
    intro s pid node key lm p2 s2 hn h
    cases node with
    | leaf a b c e d =>
      simp [BPT.findLeafLoop] at h
      obtain ⟨h1, h2⟩ := h
      subst h1
      subst h2
      exact ⟨rfl, a, b, c, e, d, hn⟩
    | internal a b c entries =>
      simp only [BPT.findLeafLoop] at h
      set child := if lm then (entries.getD 0 (0, 0)).2
        else internalLookup entries key false with hchild
      set s1 := ((s.unpinPage pid false).2) with hs1
      have hst1 : s1.store = s.store := by
        rw [hs1]
        unfold BPT.unpinPage
        by_cases hp : s.pinOf pid ≤ 0
        · simp [hp]
        · simp [hp]
      cases hf : s1.fetchPage child with
      | none => rw [hf] at h; simp at h
      | some r =>
        obtain ⟨cnode, s2t⟩ := r
        rw [hf] at h
        simp at h
        have hfn : s1.nodeAt child = some cnode ∧ s2t = s1.pinBump child := by
          unfold BPT.fetchPage at hf
          cases hn2 : s1.nodeAt child with
          | none => rw [hn2] at hf; simp at hf
          | some n2 =>
            rw [hn2] at hf
            simp at hf
            exact ⟨by rw [hf.1], hf.2.symm⟩
        have hst2 : s2t.store = s.store := by
          rw [hfn.2]
          show (s1.pinBump child).store = s.store
          unfold BPT.pinBump
          simpa using hst1
        have hnat : s2t.nodeAt child = some cnode := by
          rw [hfn.2]
          show (s1.pinBump child).nodeAt child = some cnode
          unfold BPT.pinBump BPT.nodeAt at *
          simpa using hfn.1
        obtain ⟨hstore, hleaf⟩ := ih s2t child cnode key lm p2 s2 hnat h
        exact ⟨by rw [hstore, hst2], hleaf⟩

/-- FindLeafPage lands on a leaf and preserves the page store. -/
theorem findLeafPage_leaf (fuel : Nat) (s : BPT) (key : Int) (lm : Bool)
    (pid : Int) (s1 : BPT)
    (h : BPT.findLeafPage fuel s key lm = some (pid, s1)) :
    s1.store = s.store ∧
      ∃ a b c e d, s1.nodeAt pid = some (BNode.leaf a b c e d) := by
  unfold BPT.findLeafPage at h
  cases hf : s.fetchPage s.root_page_id with
  | none => rw [hf] at h; simp at h
  | some r =>
    obtain ⟨node, st⟩ := r
    rw [hf] at h
    have hfn : s.nodeAt s.root_page_id = some node ∧ st = s.pinBump s.root_page_id := by
      unfold BPT.fetchPage at hf
      cases hn2 : s.nodeAt s.root_page_id with
      | none => rw [hn2] at hf; simp at hf
      | some n2 =>
        rw [hn2] at hf
        simp at hf
        exact ⟨by rw [hf.1], hf.2.symm⟩
    have hnat : st.nodeAt s.root_page_id = some node := by
      rw [hfn.2]
      unfold BPT.pinBump BPT.nodeAt at *
      simpa using hfn.1
    have hst : st.store = s.store := by
      rw [hfn.2]
      unfold BPT.pinBump
      simp
    obtain ⟨hstore, hleaf⟩ :=
      findLeafLoop_leaf fuel st s.root_page_id node key lm pid s1 hnat h
    exact ⟨by rw [hstore, hst], hleaf⟩

/-- C10: whenever the leaf descent succeeds, GetValue pushes exactly
one element into the results vector, hit or miss; and when the
located leaf does not contain the key it returns false while still
appending the default-initialized value. -/
theorem c10_getvalue_always_appends (fuel : Nat) (s : BPT) (key : Int)
    (results : List Int) (pid : Int) (s1 : BPT)
    (h : BPT.findLeafPage fuel s key false = some (pid, s1)) :
    ∃ entries b v s2,
      (∃ a c d nx, s1.nodeAt pid = some (BNode.leaf a c d entries nx)) ∧
      BPT.getValue fuel s key results = some (b, results ++ [v], s2) ∧
      b = (leafLookup entries key).isSome ∧
      v = (leafLookup entries key).getD defaultValue ∧
      (leafLookup entries key = none → b = false ∧ v = defaultValue) ∧
      (results ++ [v]).length = results.length + 1 := by
  obtain ⟨_, a, c, d, entries, nx, hn⟩ := findLeafPage_leaf fuel s key false pid s1 h
  refine ⟨entries, (leafLookup entries key).isSome,
    (leafLookup entries key).getD defaultValue, (s1.unpinPage pid false).2,
    ⟨a, c, d, nx, ?_⟩, ?_, rfl, rfl, ?_, by simp⟩
  · exact hn
  · unfold BPT.getValue
    rw [h]
    dsimp only
    rw [hn]
  · intro hmiss
    rw [hmiss]
    exact ⟨rfl, rfl⟩

/-- The concrete tree of the C10 witness: two keys in a root leaf. -/
def c10Tree : BPT :=
  ((insertSeq 100 (BPT.mkTree 4 4) [(1, 11), (2, 22)]).getD
    ([], BPT.mkTree 4 4)).2

/-- Witness for C10: on the two-key tree, looking up the absent key
99 descends to the root leaf, returns false and appends the default
value, growing the results vector by one. -/
theorem c10_getvalue_always_appends_witness :
    BPT.findLeafPage 100 c10Tree 99 false
      = some (1, { c10Tree with pins := aupdate c10Tree.pins 1 1 }) ∧
    ∃ entries b v s2,
      (∃ a c d nx,
        ({ c10Tree with pins := aupdate c10Tree.pins 1 1 } : BPT).nodeAt 1
          = some (BNode.leaf a c d entries nx)) ∧
      BPT.getValue 100 c10Tree 99 [] = some (b, ([] : List Int) ++ [v], s2) ∧
      b = (leafLookup entries 99).isSome ∧
      v = (leafLookup entries 99).getD defaultValue ∧
      (leafLookup entries 99 = none → b = false ∧ v = defaultValue) ∧
      (([] : List Int) ++ [v]).length = ([] : List Int).length + 1 :=
  ⟨by decide,
    c10_getvalue_always_appends 100 c10Tree 99 [] 1
      { c10Tree with pins := aupdate c10Tree.pins 1 1 } (by decide)⟩

end Primer
